import Mathlib

/-!
# Mini-Temu: a shallow embedding of `minitemu.cpp`

The C++ classes `Review`, `Product`, `ProductManager`, `CartItem`, `Cart`,
`User`, `Customer`, `Seller` and `UserManager` and the function `displayUserMenu`
are embedded as structures and pure functions.

Conventions of the embedding:

* `std::vector<T>` is `List T`; `push_back` / `emplace_back` append at the end.
* `std::find_if` returns an iterator: here the position of the first match
  together with the element it points to (`none` stands for `end()`); a write
  through the iterator is `List.set` at that position.
* `double` values (price, salePrice, averageRating, discount) are exact
  rationals `ℚ`; rounding of floating point numbers is not modelled.
* `int` values (quantity, rating) are integers `Int` kept in the 32-bit range:
  the results of `-=` and `+=` on an `int` are reduced by `wrapInt32`, the
  two's-complement wrap-around the compiled program performs on overflow.
* Console output is not part of the state and is left out, except for
  `Cart::viewCart`, whose only effect is its output. Console input arrives as
  already parsed arguments.
* A `User*` of the registry is the object it points to, a Customer or a Seller;
  a change made through the pointer is `List.set` at the user's position.
* What is entered during one session is a finite list of menu rounds, closed by
  the logout choice.
-/

namespace MiniTemu

/-! ## Data model -/

/-- Class `Review`: reviewer, text, star rating and creation date. -/
structure Review where
  username : String
  comment : String
  rating : Int
  date : String
deriving DecidableEq, Repr

/-- Class `Product`, fields in declaration order. -/
structure Product where
  name : String
  price : ℚ
  category : String
  quantity : Int
  reviews : List Review
  averageRating : ℚ
  sellerName : String
  onSale : Bool
  salePrice : ℚ
deriving DecidableEq, Repr

/-- Class `ProductManager`: the vector of all products. -/
structure ProductManager where
  products : List Product
deriving DecidableEq, Repr

/-- Class `CartItem`: a product held by value and a quantity. -/
structure CartItem where
  product : Product
  quantity : Int
deriving DecidableEq, Repr

/-- Class `Cart`: the vector of cart items. -/
structure Cart where
  items : List CartItem
deriving DecidableEq, Repr

/-- Class `User`: the protected fields of the base class. -/
structure User where
  username : String
  password : String
  role : String
deriving DecidableEq, Repr

/-- Class `Customer`: a user with a cart and the list of purchased product names. -/
structure Customer extends User where
  cart : Cart
  purchasedProducts : List String
deriving DecidableEq, Repr

/-- Class `Seller`: a user without further fields. -/
structure Seller extends User
deriving DecidableEq, Repr

/-- A `User*` of the registry: the object it points to is a Customer or a Seller. -/
inductive UserPtr where
  | customer (c : Customer) : UserPtr
  | seller (s : Seller) : UserPtr
deriving DecidableEq, Repr

/-- Class `UserManager`: the vector of registered users. -/
structure UserManager where
  users : List UserPtr
deriving DecidableEq, Repr

/-- What `Cart::viewCart` prints for one line: name, unit price, quantity, subtotal. -/
structure CartLineView where
  name : String
  unitPrice : ℚ
  quantity : Int
  subtotal : ℚ
deriving DecidableEq, Repr

/-- What `Cart::viewCart` prints: the empty-cart notice, or the lines and the total. -/
inductive CartView where
  | emptyNotice : CartView
  | listing (lines : List CartLineView) (total : ℚ) : CartView
deriving DecidableEq, Repr

/-! ## Machine integers -/

/-- The largest value of a C++ `int` (32 bits). -/
def INT_MAX : Int := 2147483647

/-- The smallest value of a C++ `int` (32 bits). -/
def INT_MIN : Int := -2147483648

/-- The value an `int` holds after an arithmetic result is stored in it: the result
reduced modulo 2^32 into the range from `INT_MIN` to `INT_MAX`. -/
def wrapInt32 (x : Int) : Int :=
  (x + 2147483648) % 4294967296 - 2147483648

/-! ## Iterators -/

/-- The iterator `std::find_if` returns: position and element of the first
element satisfying the predicate, `none` for `end()`. -/
def find_if {α : Type} (p : α → Bool) : List α → Option (Nat × α)
  | [] => none
  | x :: xs => if p x then some (0, x) else (find_if p xs).map (fun r => (r.1 + 1, r.2))

/-! ## Review and Product -/

/-- Constructor `Review::Review`; `now` is the string `getCurrentDate()` returns. -/
def mkReview (username comment : String) (rating : Int) (now : String) : Review :=
  { username := username, comment := comment, rating := rating, date := now }

/-- Constructor `Product::Product`. -/
def mkProduct (name : String) (price : ℚ) (category : String) (quantity : Int)
    (seller : String) : Product :=
  { name := name, price := price, category := category, quantity := quantity,
    reviews := [], averageRating := 0, sellerName := seller, onSale := false,
    salePrice := price }

/-- The loop of `Product::updateAverageRating`: the sum of the ratings, from 0. -/
def ratingSum (reviews : List Review) : ℚ :=
  reviews.foldl (fun sum review => sum + (review.rating : ℚ)) 0

/-- Method `Product::updateAverageRating`. -/
def Product.updateAverageRating (p : Product) : Product :=
  if p.reviews.isEmpty then p
  else { p with averageRating := ratingSum p.reviews / (p.reviews.length : ℚ) }

/-- Method `Product::addReview`. -/
def Product.addReview (p : Product) (username comment : String) (rating : Int)
    (now : String) : Product :=
  Product.updateAverageRating
    { p with reviews := p.reviews ++ [mkReview username comment rating now] }

/-- Method `Product::setSalePrice`. -/
def Product.setSalePrice (p : Product) (discount : ℚ) : Product :=
  { p with onSale := true, salePrice := p.price * (1 - discount / 100) }

/-- Method `Product::endSale`. -/
def Product.endSale (p : Product) : Product :=
  { p with onSale := false, salePrice := p.price }

/-! ## ProductManager -/

/-- The lambda of the product lookups: `p.name == productName`. -/
def nameIs (productName : String) (p : Product) : Bool :=
  decide (p.name = productName)

/-- Method `ProductManager::addProduct`. -/
def ProductManager.addProduct (pm : ProductManager) (name : String) (price : ℚ)
    (category : String) (quantity : Int) (seller : String) : ProductManager :=
  { products := pm.products ++ [mkProduct name price category quantity seller] }

/-- Method `ProductManager::updateProductQuantity`: the new state and the returned flag. -/
def ProductManager.updateProductQuantity (pm : ProductManager) (productName : String)
    (quantityToReduce : Int) : ProductManager × Bool :=
  match find_if (nameIs productName) pm.products with
  | some (i, it) =>
    if it.quantity ≥ quantityToReduce then
      ({ products :=
          pm.products.set i
            { it with quantity := wrapInt32 (it.quantity - quantityToReduce) } },
        true)
    else (pm, false)
  | none => (pm, false)

/-- Method `ProductManager::setProductOnSale`. -/
def ProductManager.setProductOnSale (pm : ProductManager) (productName : String)
    (discountPercentage : ℚ) : ProductManager :=
  match find_if (nameIs productName) pm.products with
  | some (i, it) => { products := pm.products.set i (it.setSalePrice discountPercentage) }
  | none => pm

/-- Method `ProductManager::addReviewToProduct`. -/
def ProductManager.addReviewToProduct (pm : ProductManager) (productName username
    comment : String) (rating : Int) (now : String) : ProductManager :=
  match find_if (nameIs productName) pm.products with
  | some (i, it) => { products := pm.products.set i (it.addReview username comment rating now) }
  | none => pm

/-! ## Cart -/

/-- The lambda of `Cart::addItem`: `item.product.name == product.name`. -/
def itemNameIs (product : Product) (item : CartItem) : Bool :=
  decide (item.product.name = product.name)

/-- Method `Cart::addItem`. -/
def Cart.addItem (c : Cart) (product : Product) (quantity : Int) : Cart :=
  match find_if (itemNameIs product) c.items with
  | some (i, it) =>
    { items := c.items.set i { it with quantity := wrapInt32 (it.quantity + quantity) } }
  | none => { items := c.items ++ [{ product := product, quantity := quantity }] }

/-- The price `Cart::viewCart` charges for one unit of a captured product:
`item.product.onSale ? item.product.salePrice : item.product.price`. -/
def unitPrice (product : Product) : ℚ :=
  if product.onSale then product.salePrice else product.price

/-- One round of the loop of `Cart::viewCart`: print the line, add the subtotal to the total. -/
def viewCartStep (acc : List CartLineView × ℚ) (item : CartItem) : List CartLineView × ℚ :=
  let subtotal : ℚ := unitPrice item.product * (item.quantity : ℚ)
  (acc.1 ++ [{ name := item.product.name, unitPrice := unitPrice item.product,
               quantity := item.quantity, subtotal := subtotal }],
   acc.2 + subtotal)

/-- Method `Cart::viewCart` (const): what it prints. -/
def Cart.viewCart (c : Cart) : CartView :=
  if c.items.isEmpty then CartView.emptyNotice
  else
    let r := c.items.foldl viewCartStep ([], 0)
    CartView.listing r.1 r.2

/-- Method `Cart::checkout`: the cart afterwards and the returned vector of names.
The delivery address, city and postal code it reads are only echoed to the console. -/
def Cart.checkout (c : Cart) : Cart × List String :=
  if c.items.isEmpty then (c, [])
  else
    ({ items := [] },
      c.items.foldl (fun purchasedProducts item => purchasedProducts ++ [item.product.name]) [])

/-! ## Customer and Seller -/

/-- Constructor `Customer::Customer`. -/
def mkCustomer (username password : String) : Customer :=
  { username := username, password := password, role := "customer",
    cart := { items := [] }, purchasedProducts := [] }

/-- Method `Customer::addToCart`. -/
def Customer.addToCart (c : Customer) (product : Product) (quantity : Int) : Customer :=
  { c with cart := c.cart.addItem product quantity }

/-- Method `Customer::viewCart` (const). -/
def Customer.viewCart (c : Customer) : CartView :=
  c.cart.viewCart

/-- Method `Customer::checkout`: the new purchases are inserted at the end of the ledger. -/
def Customer.checkout (c : Customer) : Customer :=
  let r := c.cart.checkout
  { c with cart := r.1, purchasedProducts := c.purchasedProducts ++ r.2 }

/-- Method `Customer::hasPurchased`. -/
def Customer.hasPurchased (c : Customer) (productName : String) : Bool :=
  decide (productName ∈ c.purchasedProducts)

/-- Method `Seller::addProduct`: the five values read from the console are passed on
to `ProductManager::addProduct` as they are. -/
def Seller.addProduct (productManager : ProductManager) (pname : String) (pprice : ℚ)
    (pcategory : String) (pquantity : Int) (seller : String) : ProductManager :=
  productManager.addProduct pname pprice pcategory pquantity seller

/-! ## The menus of `displayUserMenu` -/

/-- What a seller enters in one round of the seller menu. -/
inductive SellerChoice where
  | addProduct (pname : String) (pprice : ℚ) (pcategory : String) (pquantity : Int)
      (seller : String) : SellerChoice
  | viewAllProducts : SellerChoice
  | setOnSale (productName : String) (discount : ℚ) : SellerChoice
  | viewProductDetails (productName : String) : SellerChoice
  | viewInventory : SellerChoice
  | invalid : SellerChoice
deriving DecidableEq, Repr

/-- One round of the seller branch of `displayUserMenu` (cases 1 to 5 and default). -/
def sellerMenu (productManager : ProductManager) : SellerChoice → ProductManager
  | SellerChoice.addProduct pname pprice pcategory pquantity seller =>
    Seller.addProduct productManager pname pprice pcategory pquantity seller
  | SellerChoice.setOnSale productName discount =>
    if discount ≤ 0 ∨ discount > 100 then productManager
    else productManager.setProductOnSale productName discount
  | SellerChoice.viewAllProducts => productManager
  | SellerChoice.viewProductDetails _ => productManager
  | SellerChoice.viewInventory => productManager
  | SellerChoice.invalid => productManager

/-- The state a customer session works on: the catalog and the logged-in customer. -/
structure CustomerSession where
  productManager : ProductManager
  customer : Customer
deriving DecidableEq, Repr

/-- What a customer enters in one round of the customer menu. -/
inductive CustomerChoice where
  | viewAllProducts : CustomerChoice
  | search (query : String) : CustomerChoice
  | viewProductDetails (productName : String) : CustomerChoice
  | addToCart (productName : String) (quantity : Int) : CustomerChoice
  | viewCart : CustomerChoice
  | checkout : CustomerChoice
  | writeReview (productName : String) (rating : Int) (comment : String)
      (now : String) : CustomerChoice
  | invalid : CustomerChoice
deriving DecidableEq, Repr

/-- One round of the customer branch of `displayUserMenu` (cases 1 to 7 and default). -/
def customerMenu (s : CustomerSession) : CustomerChoice → CustomerSession
  | CustomerChoice.addToCart productName quantity =>
    match find_if (nameIs productName) s.productManager.products with
    | some (_, it) =>
      if it.quantity ≥ quantity then
        { productManager := (s.productManager.updateProductQuantity productName quantity).1,
          customer := s.customer.addToCart it quantity }
      else s
    | none => s
  | CustomerChoice.checkout => { s with customer := s.customer.checkout }
  | CustomerChoice.writeReview productName rating comment now =>
    if s.customer.hasPurchased productName then
      if rating < 1 ∨ rating > 5 then s
      else
        { productManager :=
            s.productManager.addReviewToProduct productName s.customer.username comment rating now,
          customer := s.customer }
    else s
  | CustomerChoice.viewAllProducts => s
  | CustomerChoice.search _ => s
  | CustomerChoice.viewProductDetails _ => s
  | CustomerChoice.viewCart => s
  | CustomerChoice.invalid => s

/-! ## Sequences of catalog operations -/

/-- A mutation of the catalog: the four mutating methods of `ProductManager`, with
`setOnSale` going through the discount check of the seller menu, and `Product::endSale`
called on the product at a position of the vector `getProducts()` returns. -/
inductive CatalogOp where
  | addProduct (name : String) (price : ℚ) (category : String) (quantity : Int)
      (seller : String) : CatalogOp
  | updateProductQuantity (productName : String) (quantityToReduce : Int) : CatalogOp
  | setOnSale (productName : String) (discount : ℚ) : CatalogOp
  | endSale (position : Nat) : CatalogOp
  | addReview (productName username comment : String) (rating : Int)
      (now : String) : CatalogOp
deriving DecidableEq, Repr

/-- The catalog after one operation. -/
def applyOp (pm : ProductManager) : CatalogOp → ProductManager
  | CatalogOp.addProduct name price category quantity seller =>
    pm.addProduct name price category quantity seller
  | CatalogOp.updateProductQuantity productName quantityToReduce =>
    (pm.updateProductQuantity productName quantityToReduce).1
  | CatalogOp.setOnSale productName discount =>
    sellerMenu pm (SellerChoice.setOnSale productName discount)
  | CatalogOp.endSale position =>
    match pm.products.get? position with
    | some p => { products := pm.products.set position p.endSale }
    | none => pm
  | CatalogOp.addReview productName username comment rating now =>
    pm.addReviewToProduct productName username comment rating now

/-- The catalog after a sequence of operations, first to last. -/
def runOps (pm : ProductManager) (ops : List CatalogOp) : ProductManager :=
  ops.foldl applyOp pm

/-- The empty catalog a `ProductManager` starts with. -/
def emptyCatalog : ProductManager :=
  { products := [] }

/-- The three conditions the specification states for a product. -/
def ProductInvariant (p : Product) : Prop :=
  0 ≤ p.quantity ∧ (p.onSale = true → p.salePrice ≤ p.price) ∧
    (p.onSale = false → p.salePrice = p.price)

/-- An operation that keeps the catalog in order when made on the catalog `pm`: an
`addProduct` is given a price that is not negative and a quantity from 0 to `INT_MAX`; an
`updateProductQuantity` that passes its check leaves a difference of at most `INT_MAX`,
so that storing it in the `int` does not overflow; every other operation passes. -/
def Admissible (pm : ProductManager) : CatalogOp → Prop
  | CatalogOp.addProduct _ price _ quantity _ => 0 ≤ price ∧ 0 ≤ quantity ∧ quantity ≤ INT_MAX
  | CatalogOp.updateProductQuantity productName quantityToReduce =>
    ∀ (i : Nat) (it : Product), find_if (nameIs productName) pm.products = some (i, it) →
      it.quantity ≥ quantityToReduce → it.quantity - quantityToReduce ≤ INT_MAX
  | _ => True

/-- A sequence of operations each of which is admissible on the catalog it is made on. -/
def AdmissibleRun : ProductManager → List CatalogOp → Prop
  | _, [] => True
  | pm, op :: rest => Admissible pm op ∧ AdmissibleRun (applyOp pm op) rest

/-- An operation with plain arguments: an `addProduct` with a price that is not negative
and a quantity from 0 to `INT_MAX`, an `updateProductQuantity` with an amount that is not
negative; every other operation passes. -/
def PlainOp : CatalogOp → Prop
  | CatalogOp.addProduct _ price _ quantity _ => 0 ≤ price ∧ 0 ≤ quantity ∧ quantity ≤ INT_MAX
  | CatalogOp.updateProductQuantity _ quantityToReduce => 0 ≤ quantityToReduce
  | _ => True

/-- A product off sale has its sale price equal to its price. -/
def OffSaleAtPrice (p : Product) : Prop :=
  p.onSale = false → p.salePrice = p.price

/-- The invariant with the facts it rests on: the price is not negative and the quantity
is at most `INT_MAX`. -/
def StrongInvariant (p : Product) : Prop :=
  0 ≤ p.price ∧ ProductInvariant p ∧ p.quantity ≤ INT_MAX

/-- A sequence of `Product::addReview` calls, one for each listed review, with its
username, comment, rating and date as the arguments. -/
def addReviews (p : Product) (calls : List Review) : Product :=
  calls.foldl (fun q r => q.addReview r.username r.comment r.rating r.date) p

/-- The session state after catalog operations made outside the customer session (by
seller sessions): they work on the `ProductManager` alone. -/
def afterCatalogOps (s : CustomerSession) (ops : List CatalogOp) : CustomerSession :=
  { productManager := runOps s.productManager ops, customer := s.customer }

/-! ## The shop as one customer sees it -/

/-- One step of the shop seen from one customer: a round of the customer's own menu, or
a catalog operation made in another session. -/
inductive SessionStep where
  | customer (choice : CustomerChoice) : SessionStep
  | catalog (op : CatalogOp) : SessionStep
deriving DecidableEq, Repr

/-- The state after one step. -/
def sessionStep (s : CustomerSession) : SessionStep → CustomerSession
  | SessionStep.customer choice => customerMenu s choice
  | SessionStep.catalog op => afterCatalogOps s [op]

/-- The state after a sequence of steps, first to last. -/
def runSession (s : CustomerSession) (steps : List SessionStep) : CustomerSession :=
  steps.foldl sessionStep s

/-- The start: the empty catalog and a customer as `registerUser` constructs it. -/
def newSession (username password : String) : CustomerSession :=
  { productManager := emptyCatalog, customer := mkCustomer username password }

/-- Every cart line carries the name of some product of the catalog. -/
def CartInCatalog (s : CustomerSession) : Prop :=
  ∀ item ∈ s.customer.cart.items, ∃ p ∈ s.productManager.products, p.name = item.product.name

/-! ## UserManager -/

/-- The `User` base object a registry pointer gives access to. -/
def UserPtr.toUser : UserPtr → User
  | UserPtr.customer c => c.toUser
  | UserPtr.seller s => s.toUser

/-- Method `User::getRole`. -/
def User.getRole (u : User) : String := u.role

/-- Method `User::getUsername`. -/
def User.getUsername (u : User) : String := u.username

/-- Method `User::checkPassword`: `pwd == password`. -/
def User.checkPassword (u : User) (pwd : String) : Bool := decide (pwd = u.password)

/-- Constructor `Seller::Seller`. -/
def mkSeller (username password : String) : Seller :=
  { username := username, password := password, role := "seller" }

/-- Method `UserManager::isUsernameTaken`: `any_of` over the users. -/
def UserManager.isUsernameTaken (um : UserManager) (username : String) : Bool :=
  um.users.any (fun user => decide (user.toUser.getUsername = username))

/-- Method `UserManager::registerUser`. -/
def UserManager.registerUser (um : UserManager) (username password role : String) :
    UserManager :=
  if um.isUsernameTaken username then um
  else if role = "customer" then
    { users := um.users ++ [UserPtr.customer (mkCustomer username password)] }
  else if role = "seller" then
    { users := um.users ++ [UserPtr.seller (mkSeller username password)] }
  else um

/-- What is entered during one session, up to the logout choice 0: the rounds as the
seller menu reads them and as the customer menu reads them. -/
structure SessionInput where
  sellerRounds : List SellerChoice
  customerRounds : List CustomerChoice
deriving DecidableEq, Repr

/-- Function `displayUserMenu`: the user object and the catalog when the menu loop is
left. A user whose role is neither seller nor customer, or whose object is not of the
class its role names, leaves the loop at once. -/
def displayUserMenu (user : UserPtr) (productManager : ProductManager)
    (input : SessionInput) : UserPtr × ProductManager :=
  if user.toUser.getRole = "seller" then
    match user with
    | UserPtr.seller _ => (user, input.sellerRounds.foldl sellerMenu productManager)
    | UserPtr.customer _ => (user, productManager)
  else if user.toUser.getRole = "customer" then
    match user with
    | UserPtr.customer c =>
      let s := input.customerRounds.foldl customerMenu
        { productManager := productManager, customer := c }
      (UserPtr.customer s.customer, s.productManager)
    | UserPtr.seller _ => (user, productManager)
  else (user, productManager)

/-- The test of the loop of `UserManager::login`:
`user->getUsername() == username && user->checkPassword(password)`. -/
def credentialsMatch (username password : String) (user : UserPtr) : Bool :=
  decide (user.toUser.getUsername = username) && user.toUser.checkPassword password

/-- Method `UserManager::login`: the registry and the catalog afterwards and the returned
flag. The loop stops at the first user with matching credentials, runs the menu for that
user and returns true; without such a user it returns false. -/
def UserManager.login (um : UserManager) (username password : String)
    (productManager : ProductManager) (input : SessionInput) :
    UserManager × ProductManager × Bool :=
  match find_if (credentialsMatch username password) um.users with
  | some (i, user) =>
    let r := displayUserMenu user productManager input
    ({ users := um.users.set i r.1 }, r.2, true)
  | none => (um, productManager, false)

/-- The whole state of `main`: the registry and the catalog. -/
structure Shop where
  userManager : UserManager
  productManager : ProductManager
deriving DecidableEq, Repr

/-- An action on the shop: a registration or a login with the session it opens. -/
inductive ShopStep where
  | registerUser (username password role : String) : ShopStep
  | login (username password : String) (input : SessionInput) : ShopStep
deriving DecidableEq, Repr

/-- The shop after one action. -/
def shopStep (shop : Shop) : ShopStep → Shop
  | ShopStep.registerUser username password role =>
    { userManager := shop.userManager.registerUser username password role,
      productManager := shop.productManager }
  | ShopStep.login username password input =>
    let r := shop.userManager.login username password shop.productManager input
    { userManager := r.1, productManager := r.2.1 }

/-- The shop `main` starts with: no users, no products. -/
def emptyShop : Shop :=
  { userManager := { users := [] }, productManager := emptyCatalog }

/-- The shop after a sequence of actions, first to last. -/
def runShop (steps : List ShopStep) : Shop :=
  steps.foldl shopStep emptyShop

/-- The usernames of the registry, in registration order. -/
def UserManager.usernames (um : UserManager) : List String :=
  um.users.map (fun user => user.toUser.getUsername)

/-- A sequence of AddToCart rounds of the customer menu, each with the product name and
the quantity entered. -/
def addAllToCart (s : CustomerSession) (adds : List (String × Int)) : CustomerSession :=
  adds.foldl (fun t a => customerMenu t (CustomerChoice.addToCart a.1 a.2)) s

/-! ## Sample data -/

/-- A pen, listed first in the sample catalog. -/
def samplePen : Product := mkProduct "Pen" 1 "Office" 5 "Acme"

/-- The lamp of the end-to-end example: 20.00, 10 in stock. -/
def sampleLamp : Product := mkProduct "Lamp" 20 "Home" 10 "Acme"

/-- A second product called Lamp, listed after the first. -/
def sampleLampTwo : Product := mkProduct "Lamp" 30 "Home" 2 "Bolt"

/-- A catalog with a pen and two products called Lamp. -/
def sampleCatalog : ProductManager :=
  { products := [samplePen, sampleLamp, sampleLampTwo] }

/-- A cart line: three lamps at the price captured from the sample catalog. -/
def sampleLampLine : CartItem := { product := sampleLamp, quantity := 3 }

/-- A cart line: two pens. -/
def samplePenLine : CartItem := { product := samplePen, quantity := 2 }

/-- A customer with two cart lines and one earlier purchase. -/
def sampleCustomer : Customer :=
  { username := "alice", password := "secret", role := "customer",
    cart := { items := [sampleLampLine, samplePenLine] }, purchasedProducts := ["Mug"] }

/-- The end-to-end example: the lamp is in the catalog and a new customer has just added
three lamps to the cart. -/
def lampSession : CustomerSession :=
  customerMenu
    { productManager := emptyCatalog.addProduct "Lamp" 20 "Home" 10 "Acme",
      customer := mkCustomer "alice" "pw" }
    (CustomerChoice.addToCart "Lamp" 3)

/-- A session of the sample customer, who bought a mug earlier, over the sample catalog
extended by that mug. -/
def sampleSession : CustomerSession :=
  { productManager := sampleCatalog.addProduct "Mug" 4 "Home" 9 "Acme",
    customer := sampleCustomer }

/-- A registry with the customer alice and the seller bob. -/
def sampleRegistry : UserManager :=
  { users := [UserPtr.customer (mkCustomer "alice" "secret"),
              UserPtr.seller (mkSeller "bob" "pw")] }

/-- A session in which nothing is entered before the logout. -/
def noInput : SessionInput :=
  { sellerRounds := [], customerRounds := [] }

/-- The lamp with 10 in stock in the catalog and a new customer with an empty cart. -/
def lampStart : CustomerSession :=
  { productManager := emptyCatalog.addProduct "Lamp" 20 "Home" 10 "Acme",
    customer := mkCustomer "alice" "pw" }

/-! ## Lemmas on iterators -/

theorem find_if_none {α : Type} (p : α → Bool) (l : List α)
    (h : ∀ x ∈ l, p x = false) : find_if p l = none := by
  induction l with
  | nil => rfl
  | cons a t ih =>
    have ha : p a = false := h a (List.mem_cons_self a t)
    have ht : ∀ x ∈ t, p x = false := fun x hx => h x (List.mem_cons_of_mem a hx)
    simp [find_if, ha, ih ht]

theorem find_if_append {α : Type} (p : α → Bool) (pre : List α) (x : α) (post : List α)
    (hpre : ∀ y ∈ pre, p y = false) (hx : p x = true) :
    find_if p (pre ++ x :: post) = some (pre.length, x) := by
  induction pre with
  | nil => simp [find_if, hx]
  | cons a t ih =>
    have ha : p a = false := hpre a (List.mem_cons_self a t)
    have ht : ∀ y ∈ t, p y = false := fun y hy => hpre y (List.mem_cons_of_mem a hy)
    simp [find_if, ha, ih ht]

theorem find_if_some {α : Type} (p : α → Bool) (l : List α) (i : Nat) (x : α)
    (h : find_if p l = some (i, x)) :
    ∃ pre post, l = pre ++ x :: post ∧ i = pre.length ∧ (∀ y ∈ pre, p y = false) ∧
      p x = true := by
  induction l generalizing i with
  | nil => simp [find_if] at h
  | cons a t ih =>
    by_cases ha : p a = true
    · simp [find_if, ha] at h
      obtain ⟨hi, hax⟩ := h
      subst hi; subst hax
      exact ⟨[], t, rfl, rfl, by simp, ha⟩
    · have ha' : p a = false := by simpa using ha
      simp only [find_if, ha', Bool.false_eq_true, if_false, Option.map_eq_some'] at h
      obtain ⟨⟨j, y⟩, hj, hjy⟩ := h
      simp only [Prod.mk.injEq] at hjy
      obtain ⟨hi, hy⟩ := hjy
      subst hi; subst hy
      obtain ⟨pre, post, hl, hlen, hpre, hpx⟩ := ih j hj
      refine ⟨a :: pre, post, by simp [hl], by simp [hlen], ?_, hpx⟩
      intro z hz
      rcases List.mem_cons.mp hz with hz | hz
      · subst hz; exact ha'
      · exact hpre z hz

theorem find_if_eq_none {α : Type} (p : α → Bool) (l : List α)
    (h : find_if p l = none) : ∀ x ∈ l, p x = false := by
  induction l with
  | nil => simp
  | cons a t ih =>
    by_cases ha : p a = true
    · simp [find_if, ha] at h
    · have ha' : p a = false := by simpa using ha
      simp only [find_if, ha', Bool.false_eq_true, if_false, Option.map_eq_none'] at h
      intro x hx
      rcases List.mem_cons.mp hx with hx | hx
      · subst hx; exact ha'
      · exact ih h x hx

theorem set_append_length {α : Type} (pre : List α) (x y : α) (post : List α) :
    (pre ++ x :: post).set pre.length y = pre ++ y :: post := by
  induction pre with
  | nil => rfl
  | cons a t ih => simp [ih]

theorem get_append_length {α : Type} (pre : List α) (x : α) (post : List α) :
    (pre ++ x :: post).get? pre.length = some x := by
  induction pre with
  | nil => rfl
  | cons a t ih => simpa using ih

theorem find_if_get {α : Type} (p : α → Bool) (l : List α) (i : Nat) (x : α)
    (h : find_if p l = some (i, x)) : l.get? i = some x := by
  obtain ⟨pre, post, hl, hi, _, _⟩ := find_if_some p l i x h
  rw [hl, hi]
  exact get_append_length pre x post

/-! ## Lemmas on machine integers -/

theorem wrapInt32_eq (x : Int) (hlo : INT_MIN ≤ x) (hhi : x ≤ INT_MAX) : wrapInt32 x = x := by
  unfold INT_MIN at hlo
  unfold INT_MAX at hhi
  unfold wrapInt32
  omega

theorem wrapInt32_range (x : Int) : INT_MIN ≤ wrapInt32 x ∧ wrapInt32 x ≤ INT_MAX := by
  unfold INT_MIN INT_MAX wrapInt32
  omega

/-! ## C1: updateProductQuantity -/

/-- C1, as the code has it: `ProductManager::updateProductQuantity` returns false and
leaves the catalog as it is when no product has the name or when the amount exceeds the
quantity of the first product with the name; otherwise it returns true and the catalog is
the old one with the quantity of that first product set to quantity − amount as an `int`
holds it (reduced by 2^32 on overflow), every other product and field as before. The
stored value is quantity − amount itself whenever that difference is at most `INT_MAX`,
so for every amount ≥ 0 on a quantity of at most `INT_MAX`, and it is 0 when the amount
equals the quantity. -/
theorem updateProductQuantity_spec (pm : ProductManager) (productName : String)
    (amount : Int) :
    ((∀ p ∈ pm.products, p.name ≠ productName) →
        pm.updateProductQuantity productName amount = (pm, false)) ∧
    (∀ (pre : List Product) (p : Product) (post : List Product),
        pm.products = pre ++ p :: post → (∀ x ∈ pre, x.name ≠ productName) →
        p.name = productName →
        (amount > p.quantity → pm.updateProductQuantity productName amount = (pm, false)) ∧
        (amount ≤ p.quantity →
          pm.updateProductQuantity productName amount =
            ({ products :=
                pre ++ { p with quantity := wrapInt32 (p.quantity - amount) } :: post },
              true)) ∧
        (amount ≤ p.quantity → p.quantity - amount ≤ INT_MAX →
          pm.updateProductQuantity productName amount =
            ({ products := pre ++ { p with quantity := p.quantity - amount } :: post }, true)) ∧
        (0 ≤ amount → amount ≤ p.quantity → p.quantity ≤ INT_MAX →
          pm.updateProductQuantity productName amount =
            ({ products := pre ++ { p with quantity := p.quantity - amount } :: post }, true)) ∧
        (amount = p.quantity →
          pm.updateProductQuantity productName amount =
            ({ products := pre ++ { p with quantity := 0 } :: post }, true))) := by
  refine ⟨?_, ?_⟩
  · intro h
    have hn : find_if (nameIs productName) pm.products = none :=
      find_if_none _ _ (fun x hx => by simpa [nameIs] using h x hx)
    simp [ProductManager.updateProductQuantity, hn]
  · intro pre p post hl hpre hp
    have hf : find_if (nameIs productName) pm.products = some (pre.length, p) := by
      rw [hl]
      exact find_if_append _ pre p post (fun y hy => by simpa [nameIs] using hpre y hy)
        (by simpa [nameIs] using hp)
    have hle : amount ≤ p.quantity →
        pm.updateProductQuantity productName amount =
          ({ products :=
              pre ++ { p with quantity := wrapInt32 (p.quantity - amount) } :: post },
            true) := by
      intro ha
      simp only [ProductManager.updateProductQuantity, hf, ge_iff_le, ha, if_true]
      rw [hl, set_append_length]
    have hfit : amount ≤ p.quantity → p.quantity - amount ≤ INT_MAX →
        pm.updateProductQuantity productName amount =
          ({ products := pre ++ { p with quantity := p.quantity - amount } :: post },
            true) := by
      intro ha hmax
      have hlo : INT_MIN ≤ p.quantity - amount := by
        unfold INT_MIN
        omega
      rw [hle ha, wrapInt32_eq _ hlo hmax]
    refine ⟨?_, hle, hfit, ?_, ?_⟩
    · intro ha
      have hna : ¬ (p.quantity ≥ amount) := by omega
      simp [ProductManager.updateProductQuantity, hf, hna]
    · intro h0 ha hq
      exact hfit ha (by omega)
    · intro ha
      have hmax : p.quantity - amount ≤ INT_MAX := by
        unfold INT_MAX
        omega
      rw [hfit (le_of_eq ha) hmax, ha, sub_self]

/-- C1 at the sample catalog: an unknown name and an amount above the stock fail, four
of the ten lamps can be taken and leave 6, the whole stock of the first Lamp can be taken
and leaves 0. -/
theorem updateProductQuantity_spec_witness :
    sampleCatalog.updateProductQuantity "Mug" 1 = (sampleCatalog, false) ∧
    sampleCatalog.updateProductQuantity "Lamp" 11 = (sampleCatalog, false) ∧
    sampleCatalog.updateProductQuantity "Lamp" 4 =
      ({ products := [samplePen] ++
          { sampleLamp with quantity := sampleLamp.quantity - 4 } :: [sampleLampTwo] },
        true) ∧
    sampleCatalog.updateProductQuantity "Lamp" 10 =
      ({ products := [samplePen, { sampleLamp with quantity := 0 }, sampleLampTwo] }, true) :=
  ⟨(updateProductQuantity_spec sampleCatalog "Mug" 1).1 (by decide),
   ((updateProductQuantity_spec sampleCatalog "Lamp" 11).2 [samplePen] sampleLamp
      [sampleLampTwo] rfl (by decide) rfl).1 (by decide),
   ((updateProductQuantity_spec sampleCatalog "Lamp" 4).2 [samplePen] sampleLamp
      [sampleLampTwo] rfl (by decide) rfl).2.2.2.1 (by decide) (by decide) (by decide),
   ((updateProductQuantity_spec sampleCatalog "Lamp" 10).2 [samplePen] sampleLamp
      [sampleLampTwo] rfl (by decide) rfl).2.2.2.2 rfl⟩

/-- C1 fails as stated: with 10 lamps in stock and the amount -2147483648 the check
10 >= amount passes and the stored quantity is -2147483638, not 10 − amount. -/
theorem updateProductQuantity_counterexample :
    ({ products := [sampleLamp] } : ProductManager).updateProductQuantity "Lamp"
        (-2147483648) =
      ({ products := [{ sampleLamp with quantity := -2147483638 }] }, true) ∧
    ¬ (∀ (pm : ProductManager) (productName : String) (amount : Int) (pre : List Product)
        (p : Product) (post : List Product),
        pm.products = pre ++ p :: post → (∀ x ∈ pre, x.name ≠ productName) →
        p.name = productName → amount ≤ p.quantity →
        pm.updateProductQuantity productName amount =
          ({ products := pre ++ { p with quantity := p.quantity - amount } :: post },
            true)) := by
  have hrun : ({ products := [sampleLamp] } : ProductManager).updateProductQuantity "Lamp"
      (-2147483648) =
      ({ products := [{ sampleLamp with quantity := -2147483638 }] }, true) := by
    simp [ProductManager.updateProductQuantity, find_if, nameIs, sampleLamp, mkProduct,
      wrapInt32]
  refine ⟨hrun, ?_⟩
  intro h
  have h' := h { products := [sampleLamp] } "Lamp" (-2147483648) [] sampleLamp [] rfl
    (by simp) rfl (by decide)
  rw [hrun] at h'
  simp [sampleLamp, mkProduct] at h'

/-! ## C2: the product invariant -/

theorem forall_set_of_find_if {α : Type} (Q : α → Prop) (p : α → Bool) (l : List α)
    (i : Nat) (x y : α) (h : find_if p l = some (i, x)) (hl : ∀ z ∈ l, Q z)
    (hy : Q x → Q y) : ∀ z ∈ l.set i y, Q z := by
  obtain ⟨pre, post, hpp, _, _, _⟩ := find_if_some p l i x h
  have hx : x ∈ l := by rw [hpp]; simp
  intro z hz
  rcases List.mem_or_eq_of_mem_set hz with hz | hz
  · exact hl z hz
  · rw [hz]; exact hy (hl x hx)

theorem updateAverageRating_fields (p : Product) :
    p.updateAverageRating.price = p.price ∧ p.updateAverageRating.quantity = p.quantity ∧
    p.updateAverageRating.onSale = p.onSale ∧ p.updateAverageRating.salePrice = p.salePrice ∧
    p.updateAverageRating.name = p.name ∧ p.updateAverageRating.reviews = p.reviews := by
  unfold Product.updateAverageRating
  split <;> simp

theorem addReview_fields (p : Product) (u c : String) (r : Int) (now : String) :
    (p.addReview u c r now).price = p.price ∧ (p.addReview u c r now).quantity = p.quantity ∧
    (p.addReview u c r now).onSale = p.onSale ∧
    (p.addReview u c r now).salePrice = p.salePrice := by
  obtain ⟨h1, h2, h3, h4, _, _⟩ :=
    updateAverageRating_fields { p with reviews := p.reviews ++ [mkReview u c r now] }
  exact ⟨h1, h2, h3, h4⟩

theorem applyOp_offSale (pm : ProductManager) (op : CatalogOp)
    (h : ∀ p ∈ pm.products, OffSaleAtPrice p) :
    ∀ p ∈ (applyOp pm op).products, OffSaleAtPrice p := by
  cases op with
  | addProduct name price category quantity seller =>
    intro p hp
    simp only [applyOp, ProductManager.addProduct, List.mem_append, List.mem_singleton] at hp
    rcases hp with hp | hp
    · exact h p hp
    · subst hp; intro _; rfl
  | updateProductQuantity productName quantityToReduce =>
    simp only [applyOp, ProductManager.updateProductQuantity]
    cases hf : find_if (nameIs productName) pm.products with
    | none => exact h
    | some r =>
      obtain ⟨i, it⟩ := r
      by_cases hq : it.quantity ≥ quantityToReduce
      · simp only [hq, if_true]
        exact forall_set_of_find_if OffSaleAtPrice _ _ i it _ hf h (fun hx => hx)
      · simp only [hq, if_false]; exact h
  | setOnSale productName discount =>
    simp only [applyOp, sellerMenu]
    split
    · exact h
    · simp only [ProductManager.setProductOnSale]
      cases hf : find_if (nameIs productName) pm.products with
      | none => exact h
      | some r =>
        obtain ⟨i, it⟩ := r
        exact forall_set_of_find_if OffSaleAtPrice _ _ i it _ hf h
          (fun _ hoff => by simp [Product.setSalePrice] at hoff)
  | endSale position =>
    simp only [applyOp]
    cases hg : pm.products.get? position with
    | none => exact h
    | some q =>
      intro p hp
      rcases List.mem_or_eq_of_mem_set hp with hp | hp
      · exact h p hp
      · subst hp; intro _; rfl
  | addReview productName username comment rating now =>
    simp only [applyOp, ProductManager.addReviewToProduct]
    cases hf : find_if (nameIs productName) pm.products with
    | none => exact h
    | some r =>
      obtain ⟨i, it⟩ := r
      refine forall_set_of_find_if OffSaleAtPrice _ _ i it _ hf h ?_
      obtain ⟨h1, _, h3, h4⟩ := addReview_fields it username comment rating now
      intro hx hoff
      rw [h4, h1]
      exact hx (by rw [← h3]; exact hoff)

theorem setSalePrice_strong (p : Product) (discount : ℚ) (h0 : ¬ (discount ≤ 0 ∨ discount > 100))
    (h : StrongInvariant p) : StrongInvariant (p.setSalePrice discount) := by
  obtain ⟨hprice, ⟨hq, _, _⟩, hmax⟩ := h
  have hd : 0 < discount := by
    by_contra hc
    exact h0 (Or.inl (not_lt.mp hc))
  refine ⟨hprice, ⟨hq, ?_, ?_⟩, hmax⟩
  · intro _
    show p.price * (1 - discount / 100) ≤ p.price
    have hmul : 0 ≤ p.price * (discount / 100) := mul_nonneg hprice (by positivity)
    linarith
  · intro hoff
    simp [Product.setSalePrice] at hoff

theorem applyOp_strong (pm : ProductManager) (op : CatalogOp) (hop : Admissible pm op)
    (h : ∀ p ∈ pm.products, StrongInvariant p) :
    ∀ p ∈ (applyOp pm op).products, StrongInvariant p := by
  cases op with
  | addProduct name price category quantity seller =>
    intro p hp
    simp only [applyOp, ProductManager.addProduct, List.mem_append, List.mem_singleton] at hp
    rcases hp with hp | hp
    · exact h p hp
    · subst hp
      exact ⟨hop.1, ⟨hop.2.1, fun _ => le_refl _, fun _ => rfl⟩, hop.2.2⟩
  | updateProductQuantity productName quantityToReduce =>
    simp only [applyOp, ProductManager.updateProductQuantity]
    cases hf : find_if (nameIs productName) pm.products with
    | none => exact h
    | some r =>
      obtain ⟨i, it⟩ := r
      by_cases hq : it.quantity ≥ quantityToReduce
      · simp only [hq, if_true]
        refine forall_set_of_find_if StrongInvariant _ _ i it _ hf h ?_
        rintro ⟨hprice, ⟨_, hs, ho⟩, _⟩
        have hfit : it.quantity - quantityToReduce ≤ INT_MAX := hop i it hf hq
        have hlo : INT_MIN ≤ it.quantity - quantityToReduce := by
          unfold INT_MIN
          omega
        have hw : wrapInt32 (it.quantity - quantityToReduce) =
            it.quantity - quantityToReduce := wrapInt32_eq _ hlo hfit
        refine ⟨hprice, ⟨?_, hs, ho⟩, ?_⟩
        · show 0 ≤ wrapInt32 (it.quantity - quantityToReduce)
          rw [hw]
          omega
        · show wrapInt32 (it.quantity - quantityToReduce) ≤ INT_MAX
          rw [hw]
          exact hfit
      · simp only [hq, if_false]; exact h
  | setOnSale productName discount =>
    simp only [applyOp, sellerMenu]
    split
    · exact h
    · rename_i hd
      simp only [ProductManager.setProductOnSale]
      cases hf : find_if (nameIs productName) pm.products with
      | none => exact h
      | some r =>
        obtain ⟨i, it⟩ := r
        exact forall_set_of_find_if StrongInvariant _ _ i it _ hf h
          (setSalePrice_strong it discount hd)
  | endSale position =>
    simp only [applyOp]
    cases hg : pm.products.get? position with
    | none => exact h
    | some q =>
      intro p hp
      rcases List.mem_or_eq_of_mem_set hp with hp | hp
      · exact h p hp
      · subst hp
        obtain ⟨hprice, ⟨hq, _, _⟩, hmax⟩ := h q (List.get?_mem hg)
        exact ⟨hprice, ⟨hq, fun _ => le_refl _, fun _ => rfl⟩, hmax⟩
  | addReview productName username comment rating now =>
    simp only [applyOp, ProductManager.addReviewToProduct]
    cases hf : find_if (nameIs productName) pm.products with
    | none => exact h
    | some r =>
      obtain ⟨i, it⟩ := r
      refine forall_set_of_find_if StrongInvariant _ _ i it _ hf h ?_
      obtain ⟨h1, h2, h3, h4⟩ := addReview_fields it username comment rating now
      rintro ⟨hprice, ⟨hq, hs, ho⟩, hmax⟩
      refine ⟨by rw [h1]; exact hprice, ⟨by rw [h2]; exact hq, ?_, ?_⟩, by rw [h2]; exact hmax⟩
      · intro hon; rw [h4, h1]; exact hs (by rw [← h3]; exact hon)
      · intro hoff; rw [h4, h1]; exact ho (by rw [← h3]; exact hoff)

theorem runOps_offSale (ops : List CatalogOp) (pm : ProductManager)
    (h : ∀ p ∈ pm.products, OffSaleAtPrice p) :
    ∀ p ∈ (runOps pm ops).products, OffSaleAtPrice p := by
  induction ops generalizing pm with
  | nil => exact h
  | cons op rest ih => exact ih (applyOp pm op) (applyOp_offSale pm op h)

theorem runOps_strong (ops : List CatalogOp) (pm : ProductManager)
    (hops : AdmissibleRun pm ops) (h : ∀ p ∈ pm.products, StrongInvariant p) :
    ∀ p ∈ (runOps pm ops).products, StrongInvariant p := by
  induction ops generalizing pm with
  | nil => exact h
  | cons op rest ih => exact ih (applyOp pm op) hops.2 (applyOp_strong pm op hops.1 h)

theorem plainOp_admissible (pm : ProductManager) (op : CatalogOp) (hop : PlainOp op)
    (h : ∀ p ∈ pm.products, StrongInvariant p) : Admissible pm op := by
  cases op with
  | addProduct name price category quantity seller => exact hop
  | updateProductQuantity productName quantityToReduce =>
    intro i it hf _
    have hit : it ∈ pm.products := List.get?_mem (find_if_get _ _ i it hf)
    have hmax : it.quantity ≤ INT_MAX := (h it hit).2.2
    have h0 : 0 ≤ quantityToReduce := hop
    omega
  | setOnSale productName discount => trivial
  | endSale position => trivial
  | addReview productName username comment rating now => trivial

theorem plainOps_admissibleRun (ops : List CatalogOp) (pm : ProductManager)
    (hops : ∀ op ∈ ops, PlainOp op) (h : ∀ p ∈ pm.products, StrongInvariant p) :
    AdmissibleRun pm ops := by
  induction ops generalizing pm with
  | nil => trivial
  | cons op rest ih =>
    have hadm : Admissible pm op :=
      plainOp_admissible pm op (hops op (List.mem_cons_self op rest)) h
    exact ⟨hadm, ih (applyOp pm op) (fun o ho => hops o (List.mem_cons_of_mem op ho))
      (applyOp_strong pm op hadm h)⟩

/-- C2, as the code has it: in every catalog reached from the empty one by addProduct,
updateProductQuantity, setProductOnSale behind the discount check of the seller menu,
Product::endSale and addReviewToProduct, every product off sale has salePrice == price.
When every addProduct call of the sequence has price ≥ 0 and a quantity from 0 to INT_MAX
and no updateProductQuantity call that passes its check takes the quantity above INT_MAX,
every product also has 0 ≤ quantity and, when on sale, salePrice ≤ price; this is so in
particular when every updateProductQuantity call has an amount ≥ 0. -/
theorem reachable_invariant (ops : List CatalogOp) :
    (∀ p ∈ (runOps emptyCatalog ops).products, p.onSale = false → p.salePrice = p.price) ∧
    (AdmissibleRun emptyCatalog ops →
      ∀ p ∈ (runOps emptyCatalog ops).products, ProductInvariant p) ∧
    ((∀ op ∈ ops, PlainOp op) →
      ∀ p ∈ (runOps emptyCatalog ops).products, ProductInvariant p) := by
  have hempty : ∀ p ∈ emptyCatalog.products, StrongInvariant p := by simp [emptyCatalog]
  refine ⟨?_, ?_, ?_⟩
  · exact runOps_offSale ops emptyCatalog (by simp [emptyCatalog])
  · intro hops p hp
    exact (runOps_strong ops emptyCatalog hops hempty p hp).2.1
  · intro hops p hp
    exact (runOps_strong ops emptyCatalog
      (plainOps_admissibleRun ops emptyCatalog hops hempty) hempty p hp).2.1

/-- C2 at two concrete runs. A lamp is added, put on sale at 25 percent, three are taken,
a review is added: all arguments are plain. A lamp is added and five are put back by an
amount of -5, which stays within the int range. In both the products of the catalog
satisfy the invariant. -/
theorem reachable_invariant_witness :
    (∀ p ∈ (runOps emptyCatalog
        [CatalogOp.addProduct "Lamp" 20 "Home" 10 "Acme", CatalogOp.setOnSale "Lamp" 25,
         CatalogOp.updateProductQuantity "Lamp" 3,
         CatalogOp.addReview "Lamp" "alice" "bright" 5 "Mon"]).products,
      ProductInvariant p) ∧
    (∀ p ∈ (runOps emptyCatalog
        [CatalogOp.addProduct "Lamp" 20 "Home" 10 "Acme",
         CatalogOp.updateProductQuantity "Lamp" (-5)]).products,
      ProductInvariant p) :=
  ⟨(reachable_invariant
      [CatalogOp.addProduct "Lamp" 20 "Home" 10 "Acme", CatalogOp.setOnSale "Lamp" 25,
       CatalogOp.updateProductQuantity "Lamp" 3,
       CatalogOp.addReview "Lamp" "alice" "bright" 5 "Mon"]).2.2
    (by
      intro op hop
      simp only [List.mem_cons, List.mem_singleton, List.not_mem_nil, or_false] at hop
      rcases hop with h | h | h | h <;> subst h <;> simp [PlainOp, INT_MAX]),
   (reachable_invariant
      [CatalogOp.addProduct "Lamp" 20 "Home" 10 "Acme",
       CatalogOp.updateProductQuantity "Lamp" (-5)]).2.1
    (by
      refine ⟨by simp [Admissible, INT_MAX], ?_, trivial⟩
      intro i it hf _
      simp [applyOp, emptyCatalog, ProductManager.addProduct, find_if, nameIs,
        mkProduct] at hf
      rw [← hf.2]
      simp [INT_MAX])⟩

/-- C2 fails as stated: addProduct stores a negative quantity as it is, a product with
a negative price put on sale has a sale price above its price, and with 10 lamps in stock
updateProductQuantity with the amount -2147483648 leaves the quantity -2147483638. -/
theorem reachable_invariant_counterexample :
    (∃ p ∈ (runOps emptyCatalog [CatalogOp.addProduct "Lamp" 20 "Home" (-1) "Acme"]).products,
      p.quantity = -1) ∧
    (∃ p ∈ (runOps emptyCatalog [CatalogOp.addProduct "Lamp" (-20) "Home" 10 "Acme",
        CatalogOp.setOnSale "Lamp" 25]).products,
      p.onSale = true ∧ p.price = -20 ∧ p.salePrice = -15) ∧
    (runOps emptyCatalog [CatalogOp.addProduct "Lamp" 20 "Home" 10 "Acme",
        CatalogOp.updateProductQuantity "Lamp" (-2147483648)]).products =
      [mkProduct "Lamp" 20 "Home" (-2147483638) "Acme"] ∧
    ¬ (∀ ops : List CatalogOp, ∀ p ∈ (runOps emptyCatalog ops).products,
        ProductInvariant p) := by
  refine ⟨?_, ?_, ?_, ?_⟩
  · exact ⟨mkProduct "Lamp" 20 "Home" (-1) "Acme", by
      simp [runOps, applyOp, emptyCatalog, ProductManager.addProduct], rfl⟩
  · refine ⟨(mkProduct "Lamp" (-20) "Home" 10 "Acme").setSalePrice 25, ?_, rfl, rfl, ?_⟩
    · simp [runOps, applyOp, emptyCatalog, ProductManager.addProduct, sellerMenu,
        ProductManager.setProductOnSale, find_if, nameIs, mkProduct]
      norm_num
    · simp [Product.setSalePrice, mkProduct]
      norm_num
  · simp [runOps, applyOp, emptyCatalog, ProductManager.addProduct,
      ProductManager.updateProductQuantity, find_if, nameIs, mkProduct, wrapInt32]
  · intro h
    have hq := (h [CatalogOp.addProduct "Lamp" 20 "Home" (-1) "Acme"]
      (mkProduct "Lamp" 20 "Home" (-1) "Acme")
      (by simp [runOps, applyOp, emptyCatalog, ProductManager.addProduct])).1
    simp [mkProduct] at hq

/-! ## C3: addProduct validates nothing -/

/-- C3, as the code has it: `ProductManager::addProduct` and `Seller::addProduct` check
neither the price nor the quantity; for every input they append exactly one product with
the given name, price, category, quantity and seller, off sale, salePrice equal to the
price, averageRating 0 and no reviews, after the products the catalog had. -/
theorem addProduct_appends (pm : ProductManager) (name : String) (price : ℚ)
    (category : String) (quantity : Int) (seller : String) :
    (pm.addProduct name price category quantity seller).products =
      pm.products ++
        [{ name := name, price := price, category := category, quantity := quantity,
           reviews := [], averageRating := 0, sellerName := seller, onSale := false,
           salePrice := price }] ∧
    (pm.addProduct name price category quantity seller).products.length =
      pm.products.length + 1 ∧
    Seller.addProduct pm name price category quantity seller =
      pm.addProduct name price category quantity seller := by
  refine ⟨rfl, ?_, rfl⟩
  simp [ProductManager.addProduct]

/-- C3 fails as stated: with price 0 and quantity -1 the product is stored, by the
catalog operation and by the seller command alike. -/
theorem addProduct_counterexample :
    emptyCatalog.addProduct "Lamp" 0 "Home" (-1) "Acme" =
      { products := [mkProduct "Lamp" 0 "Home" (-1) "Acme"] } ∧
    Seller.addProduct emptyCatalog "Lamp" 0 "Home" (-1) "Acme" =
      { products := [mkProduct "Lamp" 0 "Home" (-1) "Acme"] } ∧
    ¬ (∀ (pm : ProductManager) (name : String) (price : ℚ) (category : String)
        (quantity : Int) (seller : String), price ≤ 0 ∨ quantity < 0 →
        pm.addProduct name price category quantity seller = pm ∧
        Seller.addProduct pm name price category quantity seller = pm) := by
  refine ⟨rfl, rfl, ?_⟩
  intro h
  have h1 := (h emptyCatalog "Lamp" 0 "Home" (-1) "Acme" (Or.inl (le_refl 0))).1
  simp [ProductManager.addProduct, emptyCatalog] at h1

/-! ## C4 and C5: checkout -/

theorem foldl_push_back {α β : Type} (f : α → β) (l : List α) (init : List β) :
    l.foldl (fun acc x => acc ++ [f x]) init = init ++ l.map f := by
  induction l generalizing init with
  | nil => simp
  | cons a t ih => simp [ih]

theorem cart_checkout_names (c : Cart) (h : c.items ≠ []) :
    c.checkout = ({ items := [] }, c.items.map (fun item => item.product.name)) := by
  have he : c.items.isEmpty = false := by
    cases hc : c.items with
    | nil => exact absurd hc h
    | cons a t => rfl
  simp only [Cart.checkout, he, Bool.false_eq_true, if_false]
  rw [foldl_push_back (fun item : CartItem => item.product.name) c.items []]
  simp

/-- C4: for a customer with a non-empty cart, `Cart::checkout` returns the product names
of the cart lines in line order, one entry per line whatever its quantity, and empties the
cart; `Customer::checkout` leaves the cart with no lines and the ledger is the old ledger
followed by the returned list; username, password and role stay. -/
theorem checkout_nonempty (c : Customer) (h : c.cart.items ≠ []) :
    c.cart.checkout.2 = c.cart.items.map (fun item => item.product.name) ∧
    c.cart.checkout.2.length = c.cart.items.length ∧
    c.cart.checkout.1.items = [] ∧
    c.checkout.cart.items = [] ∧
    c.checkout.purchasedProducts = c.purchasedProducts ++ c.cart.checkout.2 ∧
    c.checkout.toUser = c.toUser := by
  have hc := cart_checkout_names c.cart h
  refine ⟨by rw [hc], by rw [hc]; simp, by rw [hc], ?_, rfl, rfl⟩
  show c.cart.checkout.1.items = []
  rw [hc]

/-- C4 at the sample customer: the names of the two lines are returned, once each,
and follow the earlier purchase in the ledger. -/
theorem checkout_nonempty_witness :
    sampleCustomer.cart.items ≠ [] ∧
    sampleCustomer.cart.checkout.2 = ["Lamp", "Pen"] ∧
    sampleCustomer.checkout.cart.items = [] ∧
    sampleCustomer.checkout.purchasedProducts = ["Mug", "Lamp", "Pen"] :=
  have h := checkout_nonempty sampleCustomer (by decide)
  ⟨by decide, h.1, h.2.2.2.1, by rw [h.2.2.2.2.1, h.1]; rfl⟩

/-- C5: for a customer whose cart has no lines, `Cart::checkout` returns the empty list
and keeps the cart, and `Customer::checkout` leaves the customer, cart and ledger included,
as it was; a checkout of a cart with lines never returns the empty list. -/
theorem checkout_empty (c : Customer) (h : c.cart.items = []) :
    c.cart.checkout = (c.cart, []) ∧
    c.checkout = c ∧
    c.checkout.purchasedProducts = c.purchasedProducts ∧
    (∀ d : Cart, d.items ≠ [] → d.checkout.2 ≠ []) := by
  have hc : c.cart.checkout = (c.cart, []) := by simp [Cart.checkout, h]
  have hcc : c.checkout = c := by
    simp only [Customer.checkout, hc, List.append_nil]
  refine ⟨hc, hcc, by rw [hcc], ?_⟩
  intro d hd
  rw [cart_checkout_names d hd]
  cases hi : d.items with
  | nil => exact absurd hi hd
  | cons a t => simp

/-- C5 at a new customer, whose cart is empty. -/
theorem checkout_empty_witness :
    (mkCustomer "bob" "pw").cart.checkout = ({ items := [] }, []) ∧
    (mkCustomer "bob" "pw").checkout = mkCustomer "bob" "pw" :=
  have h := checkout_empty (mkCustomer "bob" "pw") rfl
  ⟨h.1, h.2.1⟩

/-! ## C6: addItem -/

/-- C6, as the code has it: `Cart::addItem` on a name that already has a line keeps the
number of lines, sets the quantity of the first line of that name to its quantity plus
the given quantity as an `int` holds it (reduced by 2^32 on overflow), keeps the product
captured in that line and leaves the other lines as they are; the stored value is the sum
itself whenever the sum lies from INT_MIN to INT_MAX. On a name without a line it appends
one line with the given product and quantity. Adding 2 and then 3 of one name to the empty
cart gives one line with quantity 5. -/
theorem addItem_spec (c : Cart) (product : Product) (quantity : Int) :
    (∀ (pre : List CartItem) (it : CartItem) (post : List CartItem),
        c.items = pre ++ it :: post → (∀ x ∈ pre, x.product.name ≠ product.name) →
        it.product.name = product.name →
        (c.addItem product quantity).items =
          pre ++ { product := it.product, quantity := wrapInt32 (it.quantity + quantity) } ::
            post ∧
        (c.addItem product quantity).items.length = c.items.length ∧
        (INT_MIN ≤ it.quantity + quantity → it.quantity + quantity ≤ INT_MAX →
          (c.addItem product quantity).items =
            pre ++ { product := it.product, quantity := it.quantity + quantity } :: post)) ∧
    ((∀ x ∈ c.items, x.product.name ≠ product.name) →
        (c.addItem product quantity).items =
          c.items ++ [{ product := product, quantity := quantity }] ∧
        (c.addItem product quantity).items.length = c.items.length + 1) ∧
    ((({ items := [] } : Cart).addItem product 2).addItem product 3).items =
      [{ product := product, quantity := 5 }] := by
  refine ⟨?_, ?_, ?_⟩
  · intro pre it post hl hpre hit
    have hf : find_if (itemNameIs product) c.items = some (pre.length, it) := by
      rw [hl]
      exact find_if_append _ pre it post (fun y hy => by simpa [itemNameIs] using hpre y hy)
        (by simpa [itemNameIs] using hit)
    have hitems : (c.addItem product quantity).items =
        pre ++ { product := it.product, quantity := wrapInt32 (it.quantity + quantity) } ::
          post := by
      simp only [Cart.addItem, hf]
      rw [hl, set_append_length]
    refine ⟨hitems, ?_, ?_⟩
    · rw [hitems, hl]
      simp
    · intro hlo hhi
      rw [hitems, wrapInt32_eq _ hlo hhi]
  · intro h
    have hn : find_if (itemNameIs product) c.items = none :=
      find_if_none _ _ (fun x hx => by simpa [itemNameIs] using h x hx)
    have hitems : (c.addItem product quantity).items =
        c.items ++ [{ product := product, quantity := quantity }] := by
      simp only [Cart.addItem, hn]
    refine ⟨hitems, ?_⟩
    rw [hitems]
    simp
  · simp [Cart.addItem, find_if, itemNameIs, wrapInt32]

/-- C6 at the sample customer's cart: four of the second Lamp go to the lamp line, which
keeps the first Lamp; one more pen goes to the pen line, after the lamp line; a mug gets a
line of its own. -/
theorem addItem_spec_witness :
    (sampleCustomer.cart.addItem sampleLampTwo 4).items =
      [] ++ { product := sampleLampLine.product, quantity := sampleLampLine.quantity + 4 } ::
        [samplePenLine] ∧
    (sampleCustomer.cart.addItem samplePen 1).items =
      [sampleLampLine] ++
        { product := samplePenLine.product, quantity := samplePenLine.quantity + 1 } :: [] ∧
    (sampleCustomer.cart.addItem (mkProduct "Mug" 4 "Home" 9 "Acme") 1).items =
      [sampleLampLine, samplePenLine,
        { product := mkProduct "Mug" 4 "Home" 9 "Acme", quantity := 1 }] :=
  ⟨((addItem_spec sampleCustomer.cart sampleLampTwo 4).1 [] sampleLampLine [samplePenLine]
      rfl (by decide) rfl).2.2 (by decide) (by decide),
   ((addItem_spec sampleCustomer.cart samplePen 1).1 [sampleLampLine] samplePenLine []
      rfl (by decide) rfl).2.2 (by decide) (by decide),
   ((addItem_spec sampleCustomer.cart (mkProduct "Mug" 4 "Home" 9 "Acme") 1).2.1
      (by decide)).1⟩

/-- C6 fails as stated: one more lamp on a line of 2147483647 lamps leaves the line at
-2147483648; and in the customer menu, with 10 lamps in stock, AddToCart with quantity
-2000000000 entered twice leaves one line with quantity 294967296. -/
theorem addItem_counterexample :
    (({ items := [{ product := sampleLamp, quantity := 2147483647 }] } : Cart).addItem
        sampleLamp 1).items =
      [{ product := sampleLamp, quantity := -2147483648 }] ∧
    (addAllToCart lampStart
        [("Lamp", -2000000000), ("Lamp", -2000000000)]).customer.cart.items =
      [{ product := mkProduct "Lamp" 20 "Home" 10 "Acme", quantity := 294967296 }] ∧
    ¬ (∀ (c : Cart) (product : Product) (quantity : Int) (pre : List CartItem)
        (it : CartItem) (post : List CartItem),
        c.items = pre ++ it :: post → (∀ x ∈ pre, x.product.name ≠ product.name) →
        it.product.name = product.name →
        (c.addItem product quantity).items =
          pre ++ { product := it.product, quantity := it.quantity + quantity } :: post) := by
  have hrun : (({ items := [{ product := sampleLamp, quantity := 2147483647 }] } :
      Cart).addItem sampleLamp 1).items =
      [{ product := sampleLamp, quantity := -2147483648 }] := by
    simp [Cart.addItem, find_if, itemNameIs, wrapInt32]
  refine ⟨hrun, ?_, ?_⟩
  · simp [addAllToCart, lampStart, customerMenu, emptyCatalog, ProductManager.addProduct,
      ProductManager.updateProductQuantity, find_if, nameIs, itemNameIs, mkProduct,
      Customer.addToCart, mkCustomer, Cart.addItem, wrapInt32]
  · intro h
    have h' := h { items := [{ product := sampleLamp, quantity := 2147483647 }] }
      sampleLamp 1 [] { product := sampleLamp, quantity := 2147483647 } [] rfl (by simp) rfl
    rw [hrun] at h'
    simp at h'

/-! ## C7: the cart total -/

theorem foldl_viewCartStep (items : List CartItem) (lines : List CartLineView) (total : ℚ) :
    (items.foldl viewCartStep (lines, total)).2 =
      total + (items.map (fun item =>
        (if item.product.onSale = true then item.product.salePrice else item.product.price) *
          (item.quantity : ℚ))).sum ∧
    (items.foldl viewCartStep (lines, total)).1.length = lines.length + items.length := by
  induction items generalizing lines total with
  | nil => simp
  | cons a t ih =>
    obtain ⟨h1, h2⟩ := ih
      (lines ++ [{ name := a.product.name, unitPrice := unitPrice a.product,
                   quantity := a.quantity,
                   subtotal := unitPrice a.product * (a.quantity : ℚ) }])
      (total + unitPrice a.product * (a.quantity : ℚ))
    constructor
    · simp only [List.foldl_cons, viewCartStep, List.map_cons, List.sum_cons]
      rw [h1]
      simp only [unitPrice]
      ring
    · simp only [List.foldl_cons, viewCartStep]
      rw [h2, List.length_append, List.length_singleton, List.length_cons]
      omega

/-- C7: for every cart the total that the loop of `Cart::viewCart` adds up from 0 is
the sum over the cart lines of unit price × quantity, the unit price being the salePrice
of the captured product when its onSale flag is set and its price otherwise; the sum is 0
for the cart without lines, for which viewCart prints the empty-cart notice, and a cart
with lines gets one printed line per cart line and this total. Viewing the cart in the
customer menu changes neither the cart nor the catalog. -/
theorem viewCart_total (c : Cart) :
    (c.items.foldl viewCartStep ([], 0)).2 =
      (c.items.map (fun item =>
        (if item.product.onSale = true then item.product.salePrice else item.product.price) *
          (item.quantity : ℚ))).sum ∧
    (c.items ≠ [] → ∃ lines : List CartLineView, lines.length = c.items.length ∧
      c.viewCart = CartView.listing lines
        (c.items.map (fun item =>
          (if item.product.onSale = true then item.product.salePrice
            else item.product.price) * (item.quantity : ℚ))).sum) ∧
    (c.items = [] → c.viewCart = CartView.emptyNotice ∧
      (c.items.map (fun item =>
        (if item.product.onSale = true then item.product.salePrice else item.product.price) *
          (item.quantity : ℚ))).sum = 0) ∧
    (∀ s : CustomerSession, customerMenu s CustomerChoice.viewCart = s) := by
  obtain ⟨h1, h2⟩ := foldl_viewCartStep c.items [] 0
  refine ⟨by rw [h1, zero_add], ?_, ?_, fun s => rfl⟩
  · intro h
    have he : c.items.isEmpty = false := by
      cases hc : c.items with
      | nil => exact absurd hc h
      | cons a t => rfl
    refine ⟨(c.items.foldl viewCartStep ([], 0)).1, by rw [h2]; simp, ?_⟩
    simp only [Cart.viewCart, he, Bool.false_eq_true, if_false]
    rw [h1, zero_add]
  · intro h
    simp [Cart.viewCart, h]

/-- C7 at the sample cart and at the empty cart: three lamps at 20 and two pens at 1
total 62; the empty cart shows the notice. -/
theorem viewCart_total_witness :
    (∃ lines : List CartLineView, lines.length = 2 ∧
      sampleCustomer.cart.viewCart = CartView.listing lines 62) ∧
    ({ items := [] } : Cart).viewCart = CartView.emptyNotice := by
  obtain ⟨lines, hlen, hview⟩ := (viewCart_total sampleCustomer.cart).2.1 (by decide)
  refine ⟨⟨lines, hlen, ?_⟩, ((viewCart_total { items := [] }).2.2.1 rfl).1⟩
  rw [hview]
  norm_num [sampleCustomer, sampleLampLine, samplePenLine, sampleLamp, samplePen, mkProduct]

/-! ## C8: cart lines are snapshots -/

/-- C8: whatever catalog operations follow an AddToCart, the cart and what `viewCart`
prints for it, the total included, stay as they were right after the add; a product
added under a name that had no line is held in the new line as the catalog had it at
that moment. For the lamp at 20.00 with 3 in the cart the total is 60.00, and after a 25%
discount the catalog has salePrice 15.00 while the cart total is still 60.00. -/
theorem cart_snapshot (s : CustomerSession) (productName : String) (quantity : Int)
    (ops : List CatalogOp) :
    (afterCatalogOps (customerMenu s (CustomerChoice.addToCart productName quantity))
        ops).customer.cart =
      (customerMenu s (CustomerChoice.addToCart productName quantity)).customer.cart ∧
    (afterCatalogOps (customerMenu s (CustomerChoice.addToCart productName quantity))
        ops).customer.viewCart =
      (customerMenu s (CustomerChoice.addToCart productName quantity)).customer.viewCart ∧
    (∀ (pre : List Product) (it : Product) (post : List Product),
        s.productManager.products = pre ++ it :: post →
        (∀ x ∈ pre, x.name ≠ productName) → it.name = productName →
        quantity ≤ it.quantity →
        (∀ x ∈ s.customer.cart.items, x.product.name ≠ productName) →
        (afterCatalogOps (customerMenu s (CustomerChoice.addToCart productName quantity))
            ops).customer.cart.items =
          s.customer.cart.items ++ [{ product := it, quantity := quantity }]) ∧
    lampSession.customer.viewCart =
      CartView.listing [{ name := "Lamp", unitPrice := 20, quantity := 3, subtotal := 60 }]
        60 ∧
    (afterCatalogOps lampSession [CatalogOp.setOnSale "Lamp" 25]).productManager.products =
      [{ mkProduct "Lamp" 20 "Home" 7 "Acme" with onSale := true, salePrice := 15 }] ∧
    (afterCatalogOps lampSession [CatalogOp.setOnSale "Lamp" 25]).customer.viewCart =
      CartView.listing [{ name := "Lamp", unitPrice := 20, quantity := 3, subtotal := 60 }]
        60 := by
  have hview : lampSession.customer.viewCart =
      CartView.listing [{ name := "Lamp", unitPrice := 20, quantity := 3, subtotal := 60 }]
        60 := by
    simp [lampSession, customerMenu, emptyCatalog, ProductManager.addProduct, find_if, nameIs,
      mkProduct, Customer.addToCart, mkCustomer, Cart.addItem, Customer.viewCart,
      Cart.viewCart, viewCartStep, unitPrice]
    norm_num
  refine ⟨rfl, rfl, ?_, hview, ?_, hview⟩
  · intro pre it post hl hpre hit hq hcart
    have hf : find_if (nameIs productName) s.productManager.products =
        some (pre.length, it) := by
      rw [hl]
      exact find_if_append _ pre it post (fun y hy => by simpa [nameIs] using hpre y hy)
        (by simpa [nameIs] using hit)
    have hn : find_if (itemNameIs it) s.customer.cart.items = none :=
      find_if_none _ _ (fun x hx => by
        have := hcart x hx
        simpa [itemNameIs, hit] using this)
    simp [afterCatalogOps, customerMenu, hf, hq, Customer.addToCart, Cart.addItem, hn]
  · simp [afterCatalogOps, runOps, applyOp, sellerMenu, lampSession, customerMenu,
      emptyCatalog, ProductManager.addProduct, find_if, nameIs, mkProduct,
      ProductManager.updateProductQuantity, ProductManager.setProductOnSale,
      Product.setSalePrice, wrapInt32]
    norm_num

/-- C8 at the sample catalog: a new customer adds two of the first Lamp; after the
seller ends up changing the catalog the cart still holds the Lamp as it was. -/
theorem cart_snapshot_witness :
    (afterCatalogOps
        (customerMenu { productManager := sampleCatalog, customer := mkCustomer "bob" "pw" }
          (CustomerChoice.addToCart "Lamp" 2))
        [CatalogOp.setOnSale "Lamp" 50, CatalogOp.updateProductQuantity "Lamp" 8,
         CatalogOp.addReview "Lamp" "carol" "fine" 4 "Tue",
         CatalogOp.endSale 1]).customer.cart.items =
      [{ product := sampleLamp, quantity := 2 }] :=
  (cart_snapshot { productManager := sampleCatalog, customer := mkCustomer "bob" "pw" }
      "Lamp" 2
      [CatalogOp.setOnSale "Lamp" 50, CatalogOp.updateProductQuantity "Lamp" 8,
       CatalogOp.addReview "Lamp" "carol" "fine" 4 "Tue", CatalogOp.endSale 1]).2.2.1
    [samplePen] sampleLamp [sampleLampTwo] rfl (by decide) rfl (by decide) (by
      intro x hx
      simp [mkCustomer] at hx)

/-! ## C9: the average rating -/

theorem ratingSum_eq (reviews : List Review) (init : ℚ) :
    reviews.foldl (fun sum review => sum + (review.rating : ℚ)) init =
      init + (reviews.map (fun r => (r.rating : ℚ))).sum := by
  induction reviews generalizing init with
  | nil => simp
  | cons a t ih =>
    simp only [List.foldl_cons, List.map_cons, List.sum_cons]
    rw [ih]
    ring

theorem addReview_reviews (p : Product) (u c : String) (r : Int) (now : String) :
    (p.addReview u c r now).reviews = p.reviews ++ [mkReview u c r now] :=
  (updateAverageRating_fields
    { p with reviews := p.reviews ++ [mkReview u c r now] }).2.2.2.2.2

theorem addReview_average (p : Product) (u c : String) (r : Int) (now : String) :
    (p.addReview u c r now).averageRating =
      ((p.addReview u c r now).reviews.map (fun x => (x.rating : ℚ))).sum /
        ((p.addReview u c r now).reviews.length : ℚ) := by
  rw [addReview_reviews]
  have he : (p.reviews ++ [mkReview u c r now]).isEmpty = false := by
    cases p.reviews <;> rfl
  simp only [Product.addReview, Product.updateAverageRating, he, Bool.false_eq_true, if_false,
    ratingSum]
  rw [ratingSum_eq, zero_add]

theorem addReviews_reviews (calls : List Review) (p : Product) :
    (addReviews p calls).reviews = p.reviews ++ calls := by
  induction calls generalizing p with
  | nil => simp [addReviews]
  | cons a t ih =>
    have hstep : addReviews p (a :: t) =
        addReviews (p.addReview a.username a.comment a.rating a.date) t := rfl
    rw [hstep, ih, addReview_reviews]
    simp [mkReview]

theorem addReviews_average (calls : List Review) (p : Product) (h : calls ≠ []) :
    (addReviews p calls).averageRating =
      ((addReviews p calls).reviews.map (fun x => (x.rating : ℚ))).sum /
        ((addReviews p calls).reviews.length : ℚ) := by
  induction calls generalizing p with
  | nil => exact absurd rfl h
  | cons a t ih =>
    have hstep : addReviews p (a :: t) =
        addReviews (p.addReview a.username a.comment a.rating a.date) t := rfl
    rw [hstep]
    by_cases ht : t = []
    · subst ht
      exact addReview_average p a.username a.comment a.rating a.date
    · exact ih _ ht

/-- C9: a product starts with no reviews and averageRating 0; after any sequence of
addReview calls its reviews are the reviews of the calls in call order, and its
averageRating is the exact mean of their ratings when there is at least one and 0 when
there is none. From any product at all, one or more addReview calls leave averageRating
equal to the mean over the whole review list, old reviews included. -/
theorem averageRating_mean (name : String) (price : ℚ) (category : String) (quantity : Int)
    (seller : String) (calls : List Review) :
    (addReviews (mkProduct name price category quantity seller) calls).reviews = calls ∧
    (calls = [] →
      (addReviews (mkProduct name price category quantity seller) calls).averageRating = 0) ∧
    (calls ≠ [] →
      (addReviews (mkProduct name price category quantity seller) calls).averageRating =
        (calls.map (fun r => (r.rating : ℚ))).sum / (calls.length : ℚ)) ∧
    (∀ p : Product, calls ≠ [] →
      (addReviews p calls).reviews = p.reviews ++ calls ∧
      (addReviews p calls).averageRating =
        ((p.reviews ++ calls).map (fun r => (r.rating : ℚ))).sum /
          ((p.reviews ++ calls).length : ℚ)) := by
  have hr : (addReviews (mkProduct name price category quantity seller) calls).reviews =
      calls := by
    rw [addReviews_reviews]
    simp [mkProduct]
  refine ⟨hr, ?_, ?_, ?_⟩
  · intro h
    subst h
    rfl
  · intro h
    rw [addReviews_average calls _ h, hr]
  · intro p h
    refine ⟨addReviews_reviews calls p, ?_⟩
    rw [addReviews_average calls p h, addReviews_reviews]

/-- C9 at a lamp with ratings 5, 4 and 4: the mean is 13/3. -/
theorem averageRating_mean_witness :
    (addReviews sampleLamp
      [mkReview "alice" "bright" 5 "Mon", mkReview "bob" "fine" 4 "Tue",
       mkReview "carol" "good" 4 "Wed"]).averageRating = 13 / 3 := by
  have h := (averageRating_mean "Lamp" 20 "Home" 10 "Acme"
    [mkReview "alice" "bright" 5 "Mon", mkReview "bob" "fine" 4 "Tue",
     mkReview "carol" "good" 4 "Wed"]).2.2.1 (by simp)
  rw [sampleLamp, h]
  norm_num [mkReview]

/-! ## C10: where the rating is checked -/

/-- C10, as the code has it: `ProductManager::addReviewToProduct` checks no rating; for
an existing product it appends one review with the given username, comment and rating to
the first product of that name, whatever the rating, and recomputes the average. The
check is in the customer menu: WriteReview with a rating outside 1..5 leaves the session,
catalog included, as it was; with a rating in 1..5, for a purchased product that exists,
it appends one review with the customer's username, the comment and the rating. -/
theorem addReview_rating_check (pm : ProductManager) (s : CustomerSession)
    (productName username comment : String) (rating : Int) (now : String) :
    (∀ (pre : List Product) (p : Product) (post : List Product),
        pm.products = pre ++ p :: post → (∀ x ∈ pre, x.name ≠ productName) →
        p.name = productName →
        pm.addReviewToProduct productName username comment rating now =
          { products := pre ++ p.addReview username comment rating now :: post } ∧
        (p.addReview username comment rating now).reviews =
          p.reviews ++
            [{ username := username, comment := comment, rating := rating, date := now }]) ∧
    (rating < 1 ∨ rating > 5 →
        customerMenu s (CustomerChoice.writeReview productName rating comment now) = s) ∧
    (1 ≤ rating → rating ≤ 5 → s.customer.hasPurchased productName = true →
      ∀ (pre : List Product) (p : Product) (post : List Product),
        s.productManager.products = pre ++ p :: post → (∀ x ∈ pre, x.name ≠ productName) →
        p.name = productName →
        customerMenu s (CustomerChoice.writeReview productName rating comment now) =
          { productManager :=
              { products := pre ++ p.addReview s.customer.username comment rating now :: post },
            customer := s.customer } ∧
        (p.addReview s.customer.username comment rating now).reviews =
          p.reviews ++
            [{ username := s.customer.username, comment := comment, rating := rating,
               date := now }]) := by
  have hadd : ∀ (m : ProductManager) (u : String) (pre : List Product) (p : Product)
      (post : List Product), m.products = pre ++ p :: post →
      (∀ x ∈ pre, x.name ≠ productName) → p.name = productName →
      m.addReviewToProduct productName u comment rating now =
        { products := pre ++ p.addReview u comment rating now :: post } := by
    intro m u pre p post hl hpre hp
    have hf : find_if (nameIs productName) m.products = some (pre.length, p) := by
      rw [hl]
      exact find_if_append _ pre p post (fun y hy => by simpa [nameIs] using hpre y hy)
        (by simpa [nameIs] using hp)
    simp only [ProductManager.addReviewToProduct, hf]
    rw [hl, set_append_length]
  refine ⟨?_, ?_, ?_⟩
  · intro pre p post hl hpre hp
    exact ⟨hadd pm username pre p post hl hpre hp, addReview_reviews p username comment rating now⟩
  · intro hr
    simp only [customerMenu]
    split
    · simp [hr]
    · rfl
  · intro h1 h5 hbought pre p post hl hpre hp
    have hr : ¬ (rating < 1 ∨ rating > 5) := by omega
    refine ⟨?_, addReview_reviews p s.customer.username comment rating now⟩
    simp only [customerMenu, hbought, if_true, hr, if_false]
    rw [hadd s.productManager s.customer.username pre p post hl hpre hp]

/-- C10 in the sample session, whose customer bought a mug: ratings 0 and 6 are turned
down by the menu, ratings 1 and 5 add a review to the mug. -/
theorem addReview_rating_check_witness :
    customerMenu sampleSession (CustomerChoice.writeReview "Mug" 0 "bad" "Mon") =
      sampleSession ∧
    customerMenu sampleSession (CustomerChoice.writeReview "Mug" 6 "great" "Mon") =
      sampleSession ∧
    customerMenu sampleSession (CustomerChoice.writeReview "Mug" 1 "poor" "Mon") =
      { productManager :=
          { products := [samplePen, sampleLamp, sampleLampTwo] ++
              (mkProduct "Mug" 4 "Home" 9 "Acme").addReview "alice" "poor" 1 "Mon" :: [] },
        customer := sampleCustomer } ∧
    customerMenu sampleSession (CustomerChoice.writeReview "Mug" 5 "great" "Mon") =
      { productManager :=
          { products := [samplePen, sampleLamp, sampleLampTwo] ++
              (mkProduct "Mug" 4 "Home" 9 "Acme").addReview "alice" "great" 5 "Mon" :: [] },
        customer := sampleCustomer } :=
  ⟨(addReview_rating_check sampleCatalog sampleSession "Mug" "alice" "bad" 0 "Mon").2.1
      (by decide),
   (addReview_rating_check sampleCatalog sampleSession "Mug" "alice" "great" 6 "Mon").2.1
      (by decide),
   ((addReview_rating_check sampleCatalog sampleSession "Mug" "alice" "poor" 1 "Mon").2.2
      (by decide) (by decide) (by decide) [samplePen, sampleLamp, sampleLampTwo]
      (mkProduct "Mug" 4 "Home" 9 "Acme") [] rfl (by decide) rfl).1,
   ((addReview_rating_check sampleCatalog sampleSession "Mug" "alice" "great" 5 "Mon").2.2
      (by decide) (by decide) (by decide) [samplePen, sampleLamp, sampleLampTwo]
      (mkProduct "Mug" 4 "Home" 9 "Acme") [] rfl (by decide) rfl).1⟩

/-- C10 fails as stated: the catalog operation stores a review with rating 0 and one
with rating 6, and the average of the lamp becomes 6. -/
theorem addReviewToProduct_counterexample :
    (sampleCatalog.addReviewToProduct "Lamp" "alice" "bad" 0 "Mon").products =
      [samplePen,
       { sampleLamp with reviews := [mkReview "alice" "bad" 0 "Mon"], averageRating := 0 },
       sampleLampTwo] ∧
    (sampleCatalog.addReviewToProduct "Lamp" "alice" "great" 6 "Mon").products =
      [samplePen,
       { sampleLamp with reviews := [mkReview "alice" "great" 6 "Mon"], averageRating := 6 },
       sampleLampTwo] ∧
    ¬ (∀ (pm : ProductManager) (productName username comment : String) (rating : Int)
        (now : String), rating < 1 ∨ rating > 5 →
        pm.addReviewToProduct productName username comment rating now = pm) := by
  have h6 : (sampleCatalog.addReviewToProduct "Lamp" "alice" "great" 6 "Mon").products =
      [samplePen,
       { sampleLamp with reviews := [mkReview "alice" "great" 6 "Mon"], averageRating := 6 },
       sampleLampTwo] := by
    simp [sampleCatalog, ProductManager.addReviewToProduct, find_if, nameIs, samplePen,
      sampleLamp, sampleLampTwo, mkProduct, Product.addReview, Product.updateAverageRating,
      ratingSum, mkReview]
  refine ⟨?_, h6, ?_⟩
  · simp [sampleCatalog, ProductManager.addReviewToProduct, find_if, nameIs, samplePen,
      sampleLamp, sampleLampTwo, mkProduct, Product.addReview, Product.updateAverageRating,
      ratingSum, mkReview]
  · intro h
    have h' := h sampleCatalog "Lamp" "alice" "great" 6 "Mon" (Or.inr (by decide))
    rw [h'] at h6
    simp [sampleCatalog, sampleLamp, mkProduct] at h6

/-! ## C11: where the discount is checked -/

/-- C11, as the code has it: `ProductManager::setProductOnSale` checks no discount; on the
first product of the name it sets onSale and salePrice = price × (1 − discount/100) for
every discount, leaving its other fields and the other products as they are, and it
leaves the catalog as it is when no product has the name. The check is in the seller
menu: SetOnSale with a discount ≤ 0 or > 100 leaves the catalog as it is, and with
0 < discount ≤ 100 it calls setProductOnSale. A price of 20.00 at 25% gives 15.00. -/
theorem setOnSale_spec (pm : ProductManager) (productName : String) (discount : ℚ) :
    (∀ (pre : List Product) (p : Product) (post : List Product),
        pm.products = pre ++ p :: post → (∀ x ∈ pre, x.name ≠ productName) →
        p.name = productName →
        pm.setProductOnSale productName discount =
          { products :=
              pre ++ { p with onSale := true, salePrice := p.price * (1 - discount / 100) } ::
                post }) ∧
    ((∀ p ∈ pm.products, p.name ≠ productName) →
        pm.setProductOnSale productName discount = pm) ∧
    (discount ≤ 0 ∨ discount > 100 →
        sellerMenu pm (SellerChoice.setOnSale productName discount) = pm) ∧
    (0 < discount → discount ≤ 100 →
        sellerMenu pm (SellerChoice.setOnSale productName discount) =
          pm.setProductOnSale productName discount) ∧
    sellerMenu { products := [mkProduct "Lamp" 20 "Home" 10 "Acme"] }
        (SellerChoice.setOnSale "Lamp" 25) =
      { products := [{ mkProduct "Lamp" 20 "Home" 10 "Acme" with
                       onSale := true, salePrice := 15 }] } := by
  refine ⟨?_, ?_, ?_, ?_, ?_⟩
  · intro pre p post hl hpre hp
    have hf : find_if (nameIs productName) pm.products = some (pre.length, p) := by
      rw [hl]
      exact find_if_append _ pre p post (fun y hy => by simpa [nameIs] using hpre y hy)
        (by simpa [nameIs] using hp)
    simp only [ProductManager.setProductOnSale, hf]
    rw [hl, set_append_length]
    rfl
  · intro h
    have hn : find_if (nameIs productName) pm.products = none :=
      find_if_none _ _ (fun x hx => by simpa [nameIs] using h x hx)
    simp [ProductManager.setProductOnSale, hn]
  · intro hd
    simp [sellerMenu, hd]
  · intro h0 h100
    have hd : ¬ (discount ≤ 0 ∨ discount > 100) := by
      rintro (h | h)
      · exact absurd h0 (not_lt.mpr h)
      · exact absurd h (not_lt.mpr h100)
    simp only [sellerMenu, hd, if_false]
  · simp [sellerMenu, ProductManager.setProductOnSale, find_if, nameIs, mkProduct,
      Product.setSalePrice]
    norm_num

/-- C11 in the seller menu over the sample catalog: 0 and 101 are turned down, 1 and 100
put the first Lamp on sale at 99/5 and at 0. -/
theorem setOnSale_spec_witness :
    sellerMenu sampleCatalog (SellerChoice.setOnSale "Lamp" 0) = sampleCatalog ∧
    sellerMenu sampleCatalog (SellerChoice.setOnSale "Lamp" 101) = sampleCatalog ∧
    sellerMenu sampleCatalog (SellerChoice.setOnSale "Lamp" 1) =
      { products := [samplePen] ++
          { sampleLamp with onSale := true, salePrice := sampleLamp.price * (1 - 1 / 100) } ::
            [sampleLampTwo] } ∧
    sellerMenu sampleCatalog (SellerChoice.setOnSale "Lamp" 100) =
      { products := [samplePen] ++
          { sampleLamp with
            onSale := true, salePrice := sampleLamp.price * (1 - 100 / 100) } ::
            [sampleLampTwo] } :=
  ⟨(setOnSale_spec sampleCatalog "Lamp" 0).2.2.1 (Or.inl (le_refl 0)),
   (setOnSale_spec sampleCatalog "Lamp" 101).2.2.1 (Or.inr (by norm_num)),
   ((setOnSale_spec sampleCatalog "Lamp" 1).2.2.2.1 (by norm_num) (by norm_num)).trans
     ((setOnSale_spec sampleCatalog "Lamp" 1).1 [samplePen] sampleLamp [sampleLampTwo] rfl
       (by decide) rfl),
   ((setOnSale_spec sampleCatalog "Lamp" 100).2.2.2.1 (by norm_num) (by norm_num)).trans
     ((setOnSale_spec sampleCatalog "Lamp" 100).1 [samplePen] sampleLamp [sampleLampTwo] rfl
       (by decide) rfl)⟩

/-- C11 fails as stated: the catalog operation takes the discounts 0 and 101; at 0 the
first Lamp is on sale at its price, at 101 its sale price is negative. -/
theorem setProductOnSale_counterexample :
    (sampleCatalog.setProductOnSale "Lamp" 0).products =
      [samplePen, { sampleLamp with onSale := true, salePrice := 20 }, sampleLampTwo] ∧
    (sampleCatalog.setProductOnSale "Lamp" 101).products =
      [samplePen, { sampleLamp with onSale := true, salePrice := -1 / 5 }, sampleLampTwo] ∧
    ¬ (∀ (pm : ProductManager) (productName : String) (discount : ℚ),
        discount ≤ 0 ∨ discount > 100 → pm.setProductOnSale productName discount = pm) := by
  have h0 : (sampleCatalog.setProductOnSale "Lamp" 0).products =
      [samplePen, { sampleLamp with onSale := true, salePrice := 20 }, sampleLampTwo] := by
    simp [sampleCatalog, ProductManager.setProductOnSale, find_if, nameIs, samplePen,
      sampleLamp, sampleLampTwo, mkProduct, Product.setSalePrice]
  refine ⟨h0, ?_, ?_⟩
  · simp [sampleCatalog, ProductManager.setProductOnSale, find_if, nameIs, samplePen,
      sampleLamp, sampleLampTwo, mkProduct, Product.setSalePrice]
    norm_num
  · intro h
    have h' := h sampleCatalog "Lamp" 0 (Or.inl (le_refl 0))
    rw [h'] at h0
    simp [sampleCatalog, sampleLamp, mkProduct] at h0

/-! ## C12: reviews are gated by the ledger -/

theorem hasName_set (l : List Product) (i : Nat) (x y : Product) (hx : l.get? i = some x)
    (hy : y.name = x.name) (n : String) (h : ∃ p ∈ l, p.name = n) :
    ∃ p ∈ l.set i y, p.name = n := by
  induction l generalizing i with
  | nil => simp at hx
  | cons a t ih =>
    obtain ⟨p, hp, hpn⟩ := h
    cases i with
    | zero =>
      simp only [List.get?_cons_zero, Option.some.injEq] at hx
      subst hx
      rcases List.mem_cons.mp hp with hp | hp
      · exact ⟨y, by simp, by rw [hy, ← hp, hpn]⟩
      · exact ⟨p, by simp [hp], hpn⟩
    | succ j =>
      simp only [List.get?_cons_succ] at hx
      rcases List.mem_cons.mp hp with hp | hp
      · exact ⟨a, by simp, by rw [← hp, hpn]⟩
      · obtain ⟨q, hq, hqn⟩ := ih j hx ⟨p, hp, hpn⟩
        exact ⟨q, by simp [hq], hqn⟩

theorem applyOp_hasName (pm : ProductManager) (op : CatalogOp) (n : String)
    (h : ∃ p ∈ pm.products, p.name = n) : ∃ p ∈ (applyOp pm op).products, p.name = n := by
  cases op with
  | addProduct name price category quantity seller =>
    obtain ⟨p, hp, hpn⟩ := h
    exact ⟨p, by simp [applyOp, ProductManager.addProduct, hp], hpn⟩
  | updateProductQuantity productName quantityToReduce =>
    simp only [applyOp, ProductManager.updateProductQuantity]
    cases hf : find_if (nameIs productName) pm.products with
    | none => exact h
    | some r =>
      obtain ⟨i, it⟩ := r
      by_cases hq : it.quantity ≥ quantityToReduce
      · simp only [hq, if_true]
        exact hasName_set _ i it _ (find_if_get _ _ i it hf) (by rfl) n h
      · simp only [hq, if_false]; exact h
  | setOnSale productName discount =>
    simp only [applyOp, sellerMenu]
    split
    · exact h
    · simp only [ProductManager.setProductOnSale]
      cases hf : find_if (nameIs productName) pm.products with
      | none => exact h
      | some r =>
        obtain ⟨i, it⟩ := r
        exact hasName_set _ i it _ (find_if_get _ _ i it hf) (by rfl) n h
  | endSale position =>
    simp only [applyOp]
    cases hg : pm.products.get? position with
    | none => exact h
    | some q => exact hasName_set _ position q _ hg (by rfl) n h
  | addReview productName username comment rating now =>
    simp only [applyOp, ProductManager.addReviewToProduct]
    cases hf : find_if (nameIs productName) pm.products with
    | none => exact h
    | some r =>
      obtain ⟨i, it⟩ := r
      exact hasName_set _ i it _ (find_if_get _ _ i it hf)
        (by exact (updateAverageRating_fields _).2.2.2.2.1) n h

theorem checkout_cart_empty (c : Customer) : c.checkout.cart.items = [] := by
  show c.cart.checkout.1.items = []
  cases hi : c.cart.items with
  | nil => simp [Cart.checkout, hi]
  | cons a t => simp [Cart.checkout, hi]

theorem customerMenu_cartInCatalog (s : CustomerSession) (choice : CustomerChoice)
    (h : CartInCatalog s) : CartInCatalog (customerMenu s choice) := by
  cases choice with
  | addToCart productName quantity =>
    simp only [customerMenu]
    cases hf : find_if (nameIs productName) s.productManager.products with
    | none => exact h
    | some r =>
      obtain ⟨i, it⟩ := r
      by_cases hq : it.quantity ≥ quantity
      · simp only [hq, if_true]
        have hcat : ∀ n, (∃ p ∈ s.productManager.products, p.name = n) →
            ∃ p ∈ (s.productManager.updateProductQuantity productName quantity).1.products,
              p.name = n :=
          fun n hn =>
            applyOp_hasName s.productManager
              (CatalogOp.updateProductQuantity productName quantity) n hn
        have hit : it ∈ s.productManager.products := List.get?_mem (find_if_get _ _ i it hf)
        intro item hitem
        apply hcat
        simp only [Customer.addToCart, Cart.addItem] at hitem
        cases hc : find_if (itemNameIs it) s.customer.cart.items with
        | none =>
          simp only [hc, List.mem_append, List.mem_singleton] at hitem
          rcases hitem with hitem | hitem
          · exact h item hitem
          · subst hitem; exact ⟨it, hit, rfl⟩
        | some r2 =>
          obtain ⟨j, line⟩ := r2
          simp only [hc] at hitem
          rcases List.mem_or_eq_of_mem_set hitem with hitem | hitem
          · exact h item hitem
          · subst hitem
            exact h line (List.get?_mem (find_if_get _ _ j line hc))
      · simp only [hq, if_false]; exact h
  | checkout =>
    intro item hitem
    have he : (customerMenu s CustomerChoice.checkout).customer.cart.items = [] :=
      checkout_cart_empty s.customer
    rw [he] at hitem
    simp at hitem
  | writeReview productName rating comment now =>
    simp only [customerMenu]
    split
    · split
      · exact h
      · intro item hitem
        exact applyOp_hasName s.productManager
          (CatalogOp.addReview productName s.customer.username comment rating now) _
          (h item hitem)
    · exact h
  | viewAllProducts => exact h
  | search query => exact h
  | viewProductDetails productName => exact h
  | viewCart => exact h
  | invalid => exact h

theorem runSession_cartInCatalog (steps : List SessionStep) (s : CustomerSession)
    (h : CartInCatalog s) : CartInCatalog (runSession s steps) := by
  induction steps generalizing s with
  | nil => exact h
  | cons step rest ih =>
    apply ih
    cases step with
    | customer choice => exact customerMenu_cartInCatalog s choice h
    | catalog op =>
      intro item hitem
      exact applyOp_hasName s.productManager op _ (h item hitem)

theorem addReviewToProduct_at (pm : ProductManager) (productName username comment : String)
    (rating : Int) (now : String) (pre : List Product) (p : Product) (post : List Product)
    (hl : pm.products = pre ++ p :: post) (hpre : ∀ x ∈ pre, x.name ≠ productName)
    (hp : p.name = productName) :
    pm.addReviewToProduct productName username comment rating now =
      { products := pre ++ p.addReview username comment rating now :: post } := by
  have hf : find_if (nameIs productName) pm.products = some (pre.length, p) := by
    rw [hl]
    exact find_if_append _ pre p post (fun y hy => by simpa [nameIs] using hpre y hy)
      (by simpa [nameIs] using hp)
  simp only [ProductManager.addReviewToProduct, hf]
  rw [hl, set_append_length]

/-- C12: in the customer menu a WriteReview for a product that is not in the customer's
ledger leaves the session, catalog included, as it was, whatever the rating. In every
session reached from a new customer and the empty catalog by rounds of the customer menu
and catalog operations of other sessions, when the cart has a line for the product, the
checkout puts the product in the ledger (hasPurchased holds) and a WriteReview with a
rating in 1..5 then appends one review, under the customer's username, to the first
product of that name in the catalog. -/
theorem review_gating (s : CustomerSession) (username password : String)
    (steps : List SessionStep) (hs : s = runSession (newSession username password) steps)
    (productName : String) (rating : Int) (comment now : String) :
    (∀ t : CustomerSession, t.customer.hasPurchased productName = false →
        customerMenu t (CustomerChoice.writeReview productName rating comment now) = t) ∧
    ((∃ item ∈ s.customer.cart.items, item.product.name = productName) →
      (customerMenu s CustomerChoice.checkout).customer.hasPurchased productName = true ∧
      (1 ≤ rating → rating ≤ 5 →
        ∃ (pre : List Product) (p : Product) (post : List Product),
          s.productManager.products = pre ++ p :: post ∧
          (∀ x ∈ pre, x.name ≠ productName) ∧ p.name = productName ∧
          customerMenu (customerMenu s CustomerChoice.checkout)
              (CustomerChoice.writeReview productName rating comment now) =
            { productManager :=
                { products :=
                    pre ++ p.addReview s.customer.username comment rating now :: post },
              customer := s.customer.checkout } ∧
          (p.addReview s.customer.username comment rating now).reviews =
            p.reviews ++
              [{ username := s.customer.username, comment := comment, rating := rating,
                 date := now }])) := by
  refine ⟨?_, ?_⟩
  · intro t ht
    simp [customerMenu, ht]
  · rintro ⟨item, hitem, hname⟩
    have hne : s.customer.cart.items ≠ [] := by
      intro he
      rw [he] at hitem
      simp at hitem
    have hco := cart_checkout_names s.customer.cart hne
    have hbought :
        (customerMenu s CustomerChoice.checkout).customer.hasPurchased productName = true := by
      have hmem : productName ∈ s.customer.purchasedProducts ++ s.customer.cart.checkout.2 := by
        rw [hco]
        exact List.mem_append_right _ (List.mem_map.mpr ⟨item, hitem, hname⟩)
      simpa [Customer.hasPurchased, customerMenu, Customer.checkout] using hmem
    refine ⟨hbought, ?_⟩
    intro h1 h5
    have hinv : CartInCatalog s := by
      rw [hs]
      exact runSession_cartInCatalog steps _ (by
        intro it hit
        simp [newSession, mkCustomer] at hit)
    obtain ⟨q, hq, hqn⟩ := hinv item hitem
    cases hf : find_if (nameIs productName) s.productManager.products with
    | none =>
      have hfalse := find_if_eq_none _ _ hf q hq
      simp [nameIs, hqn, hname] at hfalse
    | some r =>
      obtain ⟨i, p⟩ := r
      obtain ⟨pre, post, hl, _, hpre, hp⟩ := find_if_some _ _ i p hf
      have hpre' : ∀ x ∈ pre, x.name ≠ productName :=
        fun x hx => by simpa [nameIs] using hpre x hx
      have hp' : p.name = productName := by simpa [nameIs] using hp
      refine ⟨pre, p, post, hl, hpre', hp', ?_,
        addReview_reviews p s.customer.username comment rating now⟩
      have hr : ¬ (rating < 1 ∨ rating > 5) := by omega
      have hadd := addReviewToProduct_at s.productManager productName s.customer.username
        comment rating now pre p post hl hpre' hp'
      have hstep : customerMenu (customerMenu s CustomerChoice.checkout)
          (CustomerChoice.writeReview productName rating comment now) =
          { productManager :=
              s.productManager.addReviewToProduct productName s.customer.username comment
                rating now,
            customer := s.customer.checkout } := by
        have hb := hbought
        simp only [customerMenu] at hb ⊢
        simp only [hb, if_true, hr, if_false]
        rfl
      rw [hstep, hadd]

/-- C12 for alice: with three lamps in the cart and nothing bought, a review of the lamp
is turned down; after the checkout the lamp is in the ledger and a review with rating 5
is stored in the catalog. -/
theorem review_gating_witness :
    customerMenu lampSession (CustomerChoice.writeReview "Lamp" 5 "bright" "Mon") =
      lampSession ∧
    (customerMenu lampSession CustomerChoice.checkout).customer.hasPurchased "Lamp" = true ∧
    ∃ (pre : List Product) (p : Product) (post : List Product),
      lampSession.productManager.products = pre ++ p :: post ∧
      (∀ x ∈ pre, x.name ≠ "Lamp") ∧ p.name = "Lamp" ∧
      customerMenu (customerMenu lampSession CustomerChoice.checkout)
          (CustomerChoice.writeReview "Lamp" 5 "bright" "Mon") =
        { productManager :=
            { products :=
                pre ++ p.addReview lampSession.customer.username "bright" 5 "Mon" :: post },
          customer := lampSession.customer.checkout } ∧
      (p.addReview lampSession.customer.username "bright" 5 "Mon").reviews =
        p.reviews ++
          [{ username := lampSession.customer.username, comment := "bright", rating := 5,
             date := "Mon" }] :=
  have h := review_gating lampSession "alice" "pw"
    [SessionStep.catalog (CatalogOp.addProduct "Lamp" 20 "Home" 10 "Acme"),
     SessionStep.customer (CustomerChoice.addToCart "Lamp" 3)] rfl "Lamp" 5 "bright" "Mon"
  have hline : ∃ item ∈ lampSession.customer.cart.items, item.product.name = "Lamp" :=
    ⟨{ product := mkProduct "Lamp" 20 "Home" 10 "Acme", quantity := 3 }, by decide, rfl⟩
  ⟨h.1 lampSession (by decide), (h.2 hline).1, (h.2 hline).2 (by decide) (by decide)⟩

/-! ## C13: usernames are unique -/

theorem isUsernameTaken_iff (um : UserManager) (username : String) :
    um.isUsernameTaken username = true ↔
      ∃ u ∈ um.users, u.toUser.getUsername = username := by
  simp [UserManager.isUsernameTaken, List.any_eq_true]

theorem isUsernameTaken_false (um : UserManager) (username : String)
    (h : ∀ u ∈ um.users, u.toUser.getUsername ≠ username) :
    um.isUsernameTaken username = false := by
  cases ht : um.isUsernameTaken username with
  | false => rfl
  | true =>
    obtain ⟨u, hu, hn⟩ := (isUsernameTaken_iff um username).mp ht
    exact absurd hn (h u hu)

theorem registerUser_taken (um : UserManager) (username password role : String)
    (hrole : role = "customer" ∨ role = "seller") :
    (um.registerUser username password role).isUsernameTaken username = true := by
  cases ht : um.isUsernameTaken username with
  | true => simp [UserManager.registerUser, ht]
  | false =>
    rw [isUsernameTaken_iff]
    rcases hrole with hr | hr
    · subst hr
      refine ⟨UserPtr.customer (mkCustomer username password), ?_, rfl⟩
      simp [UserManager.registerUser, ht]
    · subst hr
      refine ⟨UserPtr.seller (mkSeller username password), ?_, rfl⟩
      simp [UserManager.registerUser, ht]

theorem registerUser_nodup (um : UserManager) (username password role : String)
    (h : um.usernames.Nodup) : (um.registerUser username password role).usernames.Nodup := by
  cases ht : um.isUsernameTaken username with
  | true => simpa [UserManager.registerUser, ht] using h
  | false =>
    have hnot : username ∉ um.usernames := by
      intro hmem
      obtain ⟨u, hu, hn⟩ := List.mem_map.mp hmem
      have := (isUsernameTaken_iff um username).mpr ⟨u, hu, hn⟩
      rw [ht] at this
      exact Bool.false_ne_true this
    have happ : (um.usernames ++ [username]).Nodup := by
      rw [List.nodup_append]
      refine ⟨h, List.nodup_singleton _, ?_⟩
      intro a ha hb
      rw [List.mem_singleton] at hb
      subst hb
      exact hnot ha
    simp only [UserManager.registerUser, ht, Bool.false_eq_true, if_false]
    split
    · simpa [UserManager.usernames, UserPtr.toUser, User.getUsername, mkCustomer] using happ
    · split
      · simpa [UserManager.usernames, UserPtr.toUser, User.getUsername, mkSeller] using happ
      · exact h

theorem customerMenu_toUser (s : CustomerSession) (choice : CustomerChoice) :
    (customerMenu s choice).customer.toUser = s.customer.toUser := by
  cases choice with
  | addToCart productName quantity =>
    simp only [customerMenu]
    cases find_if (nameIs productName) s.productManager.products with
    | none => rfl
    | some r =>
      obtain ⟨i, it⟩ := r
      by_cases hq : it.quantity ≥ quantity
      · simp only [hq, if_true]; rfl
      · simp only [hq, if_false]
  | checkout => rfl
  | writeReview productName rating comment now =>
    simp only [customerMenu]
    split
    · split <;> rfl
    · rfl
  | viewAllProducts => rfl
  | search query => rfl
  | viewProductDetails productName => rfl
  | viewCart => rfl
  | invalid => rfl

theorem foldl_customerMenu_toUser (rounds : List CustomerChoice) (s : CustomerSession) :
    (rounds.foldl customerMenu s).customer.toUser = s.customer.toUser := by
  induction rounds generalizing s with
  | nil => rfl
  | cons a t ih =>
    simp only [List.foldl_cons]
    rw [ih, customerMenu_toUser]

theorem displayUserMenu_toUser (user : UserPtr) (pm : ProductManager) (input : SessionInput) :
    (displayUserMenu user pm input).1.toUser = user.toUser := by
  unfold displayUserMenu
  split
  · cases user <;> rfl
  · split
    · cases user with
      | customer c => exact foldl_customerMenu_toUser input.customerRounds _
      | seller s => rfl
    · rfl

theorem map_set_same {α β : Type} (f : α → β) (l : List α) (i : Nat) (x y : α)
    (hx : l.get? i = some x) (hy : f y = f x) : (l.set i y).map f = l.map f := by
  induction l generalizing i with
  | nil => rfl
  | cons a t ih =>
    cases i with
    | zero =>
      simp only [List.get?_cons_zero, Option.some.injEq] at hx
      subst hx
      simp [hy]
    | succ j =>
      simp only [List.get?_cons_succ] at hx
      simp [ih j hx]

theorem login_usernames (um : UserManager) (username password : String)
    (pm : ProductManager) (input : SessionInput) :
    (um.login username password pm input).1.usernames = um.usernames := by
  unfold UserManager.login
  cases hf : find_if (credentialsMatch username password) um.users with
  | none => rfl
  | some r =>
    obtain ⟨i, user⟩ := r
    exact map_set_same (fun u : UserPtr => u.toUser.getUsername) um.users i user _
      (find_if_get _ _ i user hf)
      (by
        show (displayUserMenu user pm input).1.toUser.getUsername = user.toUser.getUsername
        rw [displayUserMenu_toUser])

theorem shopStep_nodup (shop : Shop) (step : ShopStep) (h : shop.userManager.usernames.Nodup) :
    (shopStep shop step).userManager.usernames.Nodup := by
  cases step with
  | registerUser username password role =>
    exact registerUser_nodup shop.userManager username password role h
  | login username password input =>
    show (shop.userManager.login username password shop.productManager input).1.usernames.Nodup
    rw [login_usernames]
    exact h

theorem foldl_shopStep_nodup (steps : List ShopStep) (shop : Shop)
    (h : shop.userManager.usernames.Nodup) :
    (steps.foldl shopStep shop).userManager.usernames.Nodup := by
  induction steps generalizing shop with
  | nil => exact h
  | cons a t ih => exact ih _ (shopStep_nodup shop a h)

/-- C13: `UserManager::registerUser` with a username some registered user has leaves the
registry as it is, whatever the password and the roles; with an unused username and the
role customer or seller it appends exactly one user with that username, password and
role. In every registry reached from the empty one by registrations and logins the
usernames are pairwise distinct, and a second registration of alice changes nothing. -/
theorem registerUser_spec (um : UserManager) (username password role : String) :
    ((∃ u ∈ um.users, u.toUser.getUsername = username) →
        um.registerUser username password role = um) ∧
    ((∀ u ∈ um.users, u.toUser.getUsername ≠ username) → role = "customer" →
        um.registerUser username password role =
          { users := um.users ++ [UserPtr.customer (mkCustomer username password)] } ∧
        (UserPtr.customer (mkCustomer username password)).toUser =
          { username := username, password := password, role := role }) ∧
    ((∀ u ∈ um.users, u.toUser.getUsername ≠ username) → role = "seller" →
        um.registerUser username password role =
          { users := um.users ++ [UserPtr.seller (mkSeller username password)] } ∧
        (UserPtr.seller (mkSeller username password)).toUser =
          { username := username, password := password, role := role }) ∧
    (∀ steps : List ShopStep, (runShop steps).userManager.usernames.Nodup) ∧
    (∀ firstPassword firstRole : String, firstRole = "customer" ∨ firstRole = "seller" →
        (um.registerUser "alice" firstPassword firstRole).registerUser "alice" password role =
          um.registerUser "alice" firstPassword firstRole) := by
  refine ⟨?_, ?_, ?_, ?_, ?_⟩
  · intro h
    have ht := (isUsernameTaken_iff um username).mpr h
    simp [UserManager.registerUser, ht]
  · intro h hr
    have ht := isUsernameTaken_false um username h
    subst hr
    exact ⟨by simp [UserManager.registerUser, ht], rfl⟩
  · intro h hr
    have ht := isUsernameTaken_false um username h
    subst hr
    exact ⟨by simp [UserManager.registerUser, ht], rfl⟩
  · intro steps
    exact foldl_shopStep_nodup steps emptyShop (by simp [emptyShop, UserManager.usernames])
  · intro firstPassword firstRole hrole
    have ht := registerUser_taken um "alice" firstPassword firstRole hrole
    generalize um.registerUser "alice" firstPassword firstRole = registry at ht
    simp [UserManager.registerUser, ht]

/-- C13 at the sample registry: a second alice is turned down as a seller too, carol is
appended as a customer, dave as a seller. -/
theorem registerUser_spec_witness :
    sampleRegistry.registerUser "alice" "other" "seller" = sampleRegistry ∧
    sampleRegistry.registerUser "carol" "pw3" "customer" =
      { users := sampleRegistry.users ++ [UserPtr.customer (mkCustomer "carol" "pw3")] } ∧
    sampleRegistry.registerUser "dave" "pw4" "seller" =
      { users := sampleRegistry.users ++ [UserPtr.seller (mkSeller "dave" "pw4")] } :=
  ⟨(registerUser_spec sampleRegistry "alice" "other" "seller").1
      ⟨UserPtr.customer (mkCustomer "alice" "secret"), by decide, rfl⟩,
   ((registerUser_spec sampleRegistry "carol" "pw3" "customer").2.1 (by decide) rfl).1,
   ((registerUser_spec sampleRegistry "dave" "pw4" "seller").2.2.1 (by decide) rfl).1⟩

/-! ## C14: login -/

theorem credentialsMatch_iff (username password : String) (u : UserPtr) :
    credentialsMatch username password u = true ↔
      u.toUser.username = username ∧ u.toUser.password = password := by
  simp only [credentialsMatch, User.getUsername, User.checkPassword, Bool.and_eq_true,
    decide_eq_true_eq]
  constructor
  · rintro ⟨h1, h2⟩
    exact ⟨h1, h2.symm⟩
  · rintro ⟨h1, h2⟩
    exact ⟨h1, h2.symm⟩

theorem credentialsMatch_false (username password : String) (u : UserPtr)
    (h : ¬ (u.toUser.username = username ∧ u.toUser.password = password)) :
    credentialsMatch username password u = false := by
  cases hc : credentialsMatch username password u with
  | false => rfl
  | true => exact absurd ((credentialsMatch_iff username password u).mp hc) h

/-- C14: `UserManager::login` returns true exactly when some registered user has that
username and that password, both compared as whole strings; the menu is then run for the
first such user in registration order, whose object and the catalog are what the menu
leaves; without such a user login returns false and the registry and the catalog are as
before. -/
theorem login_spec (um : UserManager) (username password : String) (pm : ProductManager)
    (input : SessionInput) :
    ((um.login username password pm input).2.2 = true ↔
        ∃ u ∈ um.users, u.toUser.username = username ∧ u.toUser.password = password) ∧
    (∀ (pre : List UserPtr) (u : UserPtr) (post : List UserPtr),
        um.users = pre ++ u :: post →
        (∀ x ∈ pre, ¬ (x.toUser.username = username ∧ x.toUser.password = password)) →
        u.toUser.username = username → u.toUser.password = password →
        um.login username password pm input =
          ({ users := pre ++ (displayUserMenu u pm input).1 :: post },
            (displayUserMenu u pm input).2, true)) ∧
    ((∀ u ∈ um.users, ¬ (u.toUser.username = username ∧ u.toUser.password = password)) →
        um.login username password pm input = (um, pm, false)) := by
  refine ⟨?_, ?_, ?_⟩
  · constructor
    · intro h
      cases hf : find_if (credentialsMatch username password) um.users with
      | none => simp [UserManager.login, hf] at h
      | some r =>
        obtain ⟨i, u⟩ := r
        obtain ⟨pre, post, hl, _, _, hu⟩ := find_if_some _ _ i u hf
        exact ⟨u, by rw [hl]; simp, (credentialsMatch_iff username password u).mp hu⟩
    · rintro ⟨u, hu, hm⟩
      cases hf : find_if (credentialsMatch username password) um.users with
      | none =>
        have hfalse := find_if_eq_none _ _ hf u hu
        rw [(credentialsMatch_iff username password u).mpr hm] at hfalse
        exact absurd hfalse (by decide)
      | some r => simp [UserManager.login, hf]
  · intro pre u post hl hpre hname hpw
    have hf : find_if (credentialsMatch username password) um.users =
        some (pre.length, u) := by
      rw [hl]
      exact find_if_append _ pre u post
        (fun x hx => credentialsMatch_false username password x (hpre x hx))
        ((credentialsMatch_iff username password u).mpr ⟨hname, hpw⟩)
    simp only [UserManager.login, hf]
    rw [hl, set_append_length]
  · intro h
    have hn : find_if (credentialsMatch username password) um.users = none :=
      find_if_none _ _ (fun x hx => credentialsMatch_false username password x (h x hx))
    simp [UserManager.login, hn]

/-- C14 at the sample registry: alice logs in with her password and logs out at once;
another case in the name or in the password, or bob's password, is turned down. -/
theorem login_spec_witness :
    sampleRegistry.login "alice" "secret" sampleCatalog noInput =
      ({ users := [] ++
          (displayUserMenu (UserPtr.customer (mkCustomer "alice" "secret")) sampleCatalog
            noInput).1 :: [UserPtr.seller (mkSeller "bob" "pw")] },
        (displayUserMenu (UserPtr.customer (mkCustomer "alice" "secret")) sampleCatalog
          noInput).2, true) ∧
    sampleRegistry.login "Alice" "secret" sampleCatalog noInput =
      (sampleRegistry, sampleCatalog, false) ∧
    sampleRegistry.login "alice" "Secret" sampleCatalog noInput =
      (sampleRegistry, sampleCatalog, false) ∧
    sampleRegistry.login "alice" "pw" sampleCatalog noInput =
      (sampleRegistry, sampleCatalog, false) :=
  ⟨(login_spec sampleRegistry "alice" "secret" sampleCatalog noInput).2.1 []
      (UserPtr.customer (mkCustomer "alice" "secret")) [UserPtr.seller (mkSeller "bob" "pw")]
      rfl (by decide) rfl rfl,
   (login_spec sampleRegistry "Alice" "secret" sampleCatalog noInput).2.2 (by decide),
   (login_spec sampleRegistry "alice" "Secret" sampleCatalog noInput).2.2 (by decide),
   (login_spec sampleRegistry "alice" "pw" sampleCatalog noInput).2.2 (by decide)⟩

/-! ## C15: quantities of cart lines -/

/-- C15 at the inputs where the code departs from it: with 10 lamps in stock, AddToCart
with quantity -5 passes the stock check, gives a cart line with quantity -5 and raises the
stock to 15; with quantity 0 it gives a line with quantity 0. So not every cart built by
AddToCart rounds has only lines with a positive quantity. -/
theorem addToCart_nonpositive_quantity :
    (customerMenu lampStart (CustomerChoice.addToCart "Lamp" (-5))).customer.cart.items =
      [{ product := mkProduct "Lamp" 20 "Home" 10 "Acme", quantity := -5 }] ∧
    (customerMenu lampStart (CustomerChoice.addToCart "Lamp" (-5))).productManager.products =
      [mkProduct "Lamp" 20 "Home" 15 "Acme"] ∧
    (customerMenu lampStart (CustomerChoice.addToCart "Lamp" 0)).customer.cart.items =
      [{ product := mkProduct "Lamp" 20 "Home" 10 "Acme", quantity := 0 }] ∧
    ¬ (∀ (pm : ProductManager) (username password : String) (adds : List (String × Int)),
        ∀ item ∈ (addAllToCart
            { productManager := pm, customer := mkCustomer username password }
            adds).customer.cart.items,
          0 < item.quantity) := by
  have h5 : (customerMenu lampStart
      (CustomerChoice.addToCart "Lamp" (-5))).customer.cart.items =
      [{ product := mkProduct "Lamp" 20 "Home" 10 "Acme", quantity := -5 }] := by
    simp [lampStart, customerMenu, emptyCatalog, ProductManager.addProduct, find_if, nameIs,
      mkProduct, Customer.addToCart, mkCustomer, Cart.addItem]
  refine ⟨h5, ?_, ?_, ?_⟩
  · simp [lampStart, customerMenu, emptyCatalog, ProductManager.addProduct, find_if, nameIs,
      mkProduct, ProductManager.updateProductQuantity, wrapInt32]
  · simp [lampStart, customerMenu, emptyCatalog, ProductManager.addProduct, find_if, nameIs,
      mkProduct, Customer.addToCart, mkCustomer, Cart.addItem]
  · intro h
    have hpos := h (emptyCatalog.addProduct "Lamp" 20 "Home" 10 "Acme") "alice" "pw"
      [("Lamp", -5)] { product := mkProduct "Lamp" 20 "Home" 10 "Acme", quantity := -5 }
      (by
        show _ ∈ (customerMenu lampStart
          (CustomerChoice.addToCart "Lamp" (-5))).customer.cart.items
        rw [h5]
        exact List.mem_singleton_self _)
    exact absurd hpos (by decide)

end MiniTemu
